import Mathlib

/-!
Shallow embedding of the Cloudflare tunnel configuration manager
(`src/cloudflare/tunnels/update_config.py`).

The reconciliation core is embedded as executable Lean functions:

* Python dicts with string keys are association lists in insertion order
  (`pyLookup`, `pyInsert` model `d[k]` and `d[k] = v`);
* Python `set` iteration order is unspecified, so every function that
  iterates a set takes an oracle `π : List String → List String` that
  chooses the iteration order of each set; a run of the Python program
  corresponds to some `π` with `(π l).Perm l` for every `l`;
* the orchestrator `sync` (and `sync_dns_records`) is modelled as a pure
  function returning the ordered trace of observable events: report lines,
  warnings, mutating API calls, and the error/exit path.  Outcomes of the
  remote API calls are supplied by an `Env`.
-/

namespace Homelab

/-- A Python scalar value as it occurs in an origin-request options mapping
(`None`, booleans, integers, strings). -/
inductive PyVal where
  | pyNone : PyVal
  | pyBool : Bool → PyVal
  | pyInt : Int → PyVal
  | pyStr : String → PyVal
deriving DecidableEq

/-- A Python `dict` with string keys and scalar values, as its item list in
insertion order.  A real Python dict has pairwise-distinct keys (`Dict.WF`). -/
abbrev Dict := List (String × PyVal)

/-- Well-formedness of a Python dict: keys are pairwise distinct. -/
def Dict.WF (d : Dict) : Prop := (d.map Prod.fst).Nodup

/-- Python `d[k]` / `d.get(k)`: the value at the first (for a WF dict, only)
occurrence of key `k`. -/
def pyLookup {α : Type} (d : List (String × α)) (k : String) : Option α :=
  (d.find? (fun kv => kv.1 == k)).map Prod.snd

/-- Python `d[k] = v`: overwrite in place when the key exists (CPython keeps
the original insertion position), append otherwise. -/
def pyInsert {α : Type} (d : List (String × α)) (k : String) (v : α) :
    List (String × α) :=
  if (d.map Prod.fst).contains k then
    d.map (fun kv => if kv.1 == k then (k, v) else kv)
  else d ++ [(k, v)]

/-- Python `dict.__eq__`: both dicts agree on every key either holds,
ignoring insertion order. -/
def dictBeq (d1 d2 : Dict) : Bool :=
  d1.all (fun kv => pyLookup d2 kv.1 == some kv.2) &&
  d2.all (fun kv => pyLookup d1 kv.1 == some kv.2)

/-- `TunnelRoute`: hostname, service, and the optional `originRequest`
mapping.  The pydantic `OriginRequest` model (declared field `noTLSVerify`
plus `extra = "allow"` keys) is one flat dict of its fields and extras. -/
structure TunnelRoute where
  hostname : String
  service : String
  originRequest : Option Dict
deriving DecidableEq

/-- A route is well formed when its options mapping, if present, is a real
Python dict (distinct keys). -/
def TunnelRoute.WF (r : TunnelRoute) : Prop :=
  ∀ d, r.originRequest = some d → Dict.WF d

instance : DecidablePred Dict.WF := fun d => by
  unfold Dict.WF; infer_instance

instance (r : TunnelRoute) : Decidable r.WF :=
  match hor : r.originRequest with
  | none => isTrue (fun d hd => by rw [hor] at hd; exact Option.noConfusion hd)
  | some d =>
    decidable_of_iff (Dict.WF d)
      ⟨fun h d' hd' => by
          rw [hor] at hd'
          injection hd' with he
          exact he ▸ h,
        fun h => h d hor⟩

/-- `TunnelRoute.__eq__`: hostname, service and `originRequest` compare
equal by value; `None == None` holds, `None` never equals a mapping, and
mappings compare as Python dicts. -/
def routeBeq (a b : TunnelRoute) : Bool :=
  a.hostname == b.hostname && a.service == b.service &&
    (match a.originRequest, b.originRequest with
     | none, none => true
     | some d1, some d2 => dictBeq d1 d2
     | _, _ => false)

/-- `RouteActions`: the three buckets computed by `compare_routes`. -/
structure RouteActions where
  create : List TunnelRoute
  update : List TunnelRoute
  delete : List TunnelRoute
deriving DecidableEq

/-- `RouteActions.has_changes`: any bucket non-empty. -/
def RouteActions.has_changes (a : RouteActions) : Bool :=
  !a.create.isEmpty || !a.update.isEmpty || !a.delete.isEmpty

/-- `{r.hostname: r for r in routes}`: a Python dict comprehension keyed by
hostname (for a duplicated hostname the last route wins, keeping the first
occurrence's position). -/
def buildRouteDict (routes : List TunnelRoute) : List (String × TunnelRoute) :=
  routes.foldl (fun d r => pyInsert d r.hostname r) []

/-- `TunnelConfigManager.compare_routes`.  `lcl`/`rmt` are the `local` and
`remote` arguments (`local` is a Lean keyword).  `π` is the set-iteration
oracle: the Python code iterates `local_hostnames - remote_hostnames`,
`remote_hostnames - local_hostnames` and `local_hostnames & remote_hostnames`
as Python sets, whose iteration order is some permutation of the elements. -/
def compare_routes (π : List String → List String)
    (lcl rmt : List TunnelRoute) : RouteActions :=
  let local_dict := buildRouteDict lcl
  let remote_dict := buildRouteDict rmt
  let local_hostnames := local_dict.map Prod.fst
  let remote_hostnames := remote_dict.map Prod.fst
  let createKeys := π (local_hostnames.filter (fun h => !remote_hostnames.contains h))
  let deleteKeys := π (remote_hostnames.filter (fun h => !local_hostnames.contains h))
  let bothKeys := π (local_hostnames.filter (fun h => remote_hostnames.contains h))
  { create := createKeys.filterMap (fun h => pyLookup local_dict h)
    delete := deleteKeys.filterMap (fun h => pyLookup remote_dict h)
    update := bothKeys.filterMap (fun h =>
      match pyLookup local_dict h, pyLookup remote_dict h with
      | some lr, some rr => if routeBeq lr rr then none else some lr
      | _, _ => none) }

/-- One ingress rule of the pushed configuration document, e.g.
`{"hostname": h, "service": s, "originRequest": {...}}`.  The catch-all rule
has no hostname. -/
structure IngressRule where
  hostname : Option String
  service : String
  originRequest : Option Dict
deriving DecidableEq

/-- `OriginRequest.model_dump(by_alias=True, exclude_none=True)`: keys whose
value is `None` are dropped from the dumped mapping. -/
def dumpExcludeNone (d : Dict) : Dict :=
  d.filter (fun kv => kv.2 != PyVal.pyNone)

/-- `TunnelRoute.to_dict`: convert to Cloudflare API format. -/
def TunnelRoute.to_dict (r : TunnelRoute) : IngressRule :=
  { hostname := some r.hostname
    service := r.service
    originRequest := r.originRequest.map dumpExcludeNone }

/-- `TunnelConfig`: the complete configuration document. -/
structure TunnelConfig where
  ingress : List IngressRule
deriving DecidableEq

/-- The fixed catch-all rule `{"service": "http_status:404"}` appended by
`build_cloudflare_config`. -/
def catchAllRule : IngressRule :=
  { hostname := none, service := "http_status:404", originRequest := none }

/-- `TunnelConfigManager.build_cloudflare_config`. -/
def build_cloudflare_config (routes : List TunnelRoute) : TunnelConfig :=
  { ingress := routes.map TunnelRoute.to_dict ++ [catchAllRule] }

/-- `DNSRecord`: id (present only on fetched records), type, name, content,
proxied flag and ttl. -/
structure DNSRecord where
  id : Option String
  type : String
  name : String
  content : String
  proxied : Bool
  ttl : Int
deriving DecidableEq

/-- Python `str.endswith`: the suffix's characters end the string. -/
def strEndsWith (s suffix : String) : Bool :=
  decide (suffix.data.IsSuffix s.data)

/-- The managed-record filter of `get_existing_dns_records`:
`record_data.get("type") == "CNAME" and
 record_data.get("content", "").endswith(".cfargotunnel.com")`. -/
def managedRecord (rd : DNSRecord) : Bool :=
  rd.type == "CNAME" && strEndsWith rd.content ".cfargotunnel.com"

/-- One observable event of a run: report lines, warnings, mutating API
calls, and the error/exit path. -/
inductive Event where
  | reportRouteCreate : TunnelRoute → Event
  | reportRouteUpdate : TunnelRoute → Event
  | reportRouteDelete : TunnelRoute → Event
  | noRouteChanges : Event
  | dryRunNotice : Event
  | mutUpdateTunnelConfig : TunnelConfig → Event
  | routeApplyError : Event
  | exitError : Event
  | dnsHeader : Event
  | warnDnsFetchFailed : Event
  | reportDnsCreate : String → Event
  | reportDnsUpdate : String → Event
  | reportDnsDelete : String → Event
  | dnsInSync : Event
  | mutCreateDns : DNSRecord → Event
  | mutUpdateDns : String → DNSRecord → Event
  | mutDeleteDns : String → String → Event
  | dnsApplyError : Event
deriving DecidableEq

/-- Events that are mutating API calls. -/
def Event.isMutation : Event → Bool
  | Event.mutUpdateTunnelConfig _ => true
  | Event.mutCreateDns _ => true
  | Event.mutUpdateDns _ _ => true
  | Event.mutDeleteDns _ _ => true
  | _ => false

/-- Events that enumerate a computed action in the report. -/
def Event.isReport : Event → Bool
  | Event.reportRouteCreate _ => true
  | Event.reportRouteUpdate _ => true
  | Event.reportRouteDelete _ => true
  | Event.reportDnsCreate _ => true
  | Event.reportDnsUpdate _ => true
  | Event.reportDnsDelete _ => true
  | _ => false

/-- Outcomes of the remote API calls for one run, plus the tunnel id the
manager was constructed with. -/
structure Env where
  tunnel_id : String
  dnsFetch : Except Unit (List DNSRecord)
  updateConfigOutcome : Except Unit Unit
  createDnsOutcome : String → Except Unit Unit
  updateDnsOutcome : String → Except Unit Unit
  deleteDnsOutcome : String → Except Unit Unit

/-- `self.tunnel_domain = f"{tunnel_id}.cfargotunnel.com"`. -/
def Env.tunnel_domain (env : Env) : String :=
  env.tunnel_id ++ ".cfargotunnel.com"

/-- `TunnelConfigManager.get_existing_dns_records`, given the outcome of
`list_dns_records`: on success, filter managed records into a name-keyed
dict (`records[record.name] = record`, so the last managed record wins per
name); on HTTP error, print a warning and return the empty dict.  The
boolean is whether the warning was printed. -/
def get_existing_dns_records (fetch : Except Unit (List DNSRecord)) :
    List (String × DNSRecord) × Bool :=
  match fetch with
  | Except.ok result =>
      (result.foldl
        (fun d rd => if managedRecord rd then pyInsert d rd.name rd else d) [],
       false)
  | Except.error _ => ([], true)

/-- The bucket computation inside `sync_dns_records`: required hostnames are
the set of route hostnames; create/update/delete are computed against the
existing managed-record dict.  `π` is the set-iteration oracle. -/
def dns_buckets (π : List String → List String) (env : Env)
    (existing_records : List (String × DNSRecord))
    (routes : List TunnelRoute) :
    List String × List String × List String :=
  let required_hostnames := (routes.map TunnelRoute.hostname).dedup
  let existing_hostnames := existing_records.map Prod.fst
  let dns_create :=
    π (required_hostnames.filter (fun h => !existing_hostnames.contains h))
  let dns_update :=
    (π (required_hostnames.filter (fun h => existing_hostnames.contains h))).filter
      (fun h => match pyLookup existing_records h with
        | some rd => rd.content != env.tunnel_domain
        | none => false)
  let dns_delete :=
    π (existing_hostnames.filter (fun h => !required_hostnames.contains h))
  (dns_create, dns_update, dns_delete)

/-- The DNS record synthesized for `hostname` by the create and update
loops: `DNSRecord(type="CNAME", name=hostname, content=self.api.tunnel_domain,
proxied=True, ttl=1)`. -/
def synthRecord (env : Env) (hostname : String) : DNSRecord :=
  { id := none, type := "CNAME", name := hostname,
    content := env.tunnel_domain, proxied := true, ttl := 1 }

/-- The create loop of the DNS apply phase: each `create_dns_record` call is
attempted in order; the first HTTP error aborts the whole phase (the
boolean is whether the loop finished without error). -/
def applyDnsCreates (env : Env) : List String → List Event × Bool
  | [] => ([], true)
  | h :: rest =>
    match env.createDnsOutcome h with
    | Except.ok _ =>
        let tail := applyDnsCreates env rest
        (Event.mutCreateDns (synthRecord env h) :: tail.1, tail.2)
    | Except.error _ => ([Event.mutCreateDns (synthRecord env h)], false)

/-- The update loop of the DNS apply phase: `existing = existing_records[h]`,
and the call is made only `if existing.id:` (a missing or empty id is
silently skipped).  A lookup miss cannot occur for hostnames of the update
bucket, which are keys of `existing_records`. -/
def applyDnsUpdates (env : Env)
    (existing_records : List (String × DNSRecord)) :
    List String → List Event × Bool
  | [] => ([], true)
  | h :: rest =>
    match pyLookup existing_records h with
    | some ex =>
      match ex.id with
      | some i =>
        if i.isEmpty then applyDnsUpdates env existing_records rest
        else
          match env.updateDnsOutcome h with
          | Except.ok _ =>
              let tail := applyDnsUpdates env existing_records rest
              (Event.mutUpdateDns i (synthRecord env h) :: tail.1, tail.2)
          | Except.error _ => ([Event.mutUpdateDns i (synthRecord env h)], false)
      | none => applyDnsUpdates env existing_records rest
    | none => applyDnsUpdates env existing_records rest

/-- The delete loop of the DNS apply phase, analogous to the update loop:
`delete_dns_record(existing.id)` only `if existing.id:`.  The event records
the id passed to the API and the hostname being processed. -/
def applyDnsDeletes (env : Env)
    (existing_records : List (String × DNSRecord)) :
    List String → List Event × Bool
  | [] => ([], true)
  | h :: rest =>
    match pyLookup existing_records h with
    | some ex =>
      match ex.id with
      | some i =>
        if i.isEmpty then applyDnsDeletes env existing_records rest
        else
          match env.deleteDnsOutcome h with
          | Except.ok _ =>
              let tail := applyDnsDeletes env existing_records rest
              (Event.mutDeleteDns i h :: tail.1, tail.2)
          | Except.error _ => ([Event.mutDeleteDns i h], false)
      | none => applyDnsDeletes env existing_records rest
    | none => applyDnsDeletes env existing_records rest

/-- The whole apply section of `sync_dns_records`: one `try` around the
three loops; the first HTTP error prints the error and `sys.exit(1)`s. -/
def applyDnsChanges (env : Env)
    (existing_records : List (String × DNSRecord))
    (dns_create dns_update dns_delete : List String) : List Event :=
  let c := applyDnsCreates env dns_create
  if !c.2 then c.1 ++ [Event.dnsApplyError, Event.exitError]
  else
    let u := applyDnsUpdates env existing_records dns_update
    if !u.2 then c.1 ++ u.1 ++ [Event.dnsApplyError, Event.exitError]
    else
      let d := applyDnsDeletes env existing_records dns_delete
      if !d.2 then c.1 ++ u.1 ++ d.1 ++ [Event.dnsApplyError, Event.exitError]
      else c.1 ++ u.1 ++ d.1

/-- `TunnelConfigManager.sync_dns_records` as its event trace: header,
possible fetch warning, the planned-action report, then either the in-sync
message, the dry-run early return, or the apply section. -/
def sync_dns_records (π : List String → List String) (env : Env)
    (manage_dns : Bool) (routes : List TunnelRoute) (dry_run : Bool) :
    List Event :=
  if !manage_dns then [] else
  let fetched := get_existing_dns_records env.dnsFetch
  let existing_records := fetched.1
  let buckets := dns_buckets π env existing_records routes
  let dns_create := buckets.1
  let dns_update := buckets.2.1
  let dns_delete := buckets.2.2
  let warnEvs := if fetched.2 then [Event.warnDnsFetchFailed] else []
  let reports := dns_create.map Event.reportDnsCreate ++
      dns_update.map Event.reportDnsUpdate ++
      dns_delete.map Event.reportDnsDelete
  Event.dnsHeader :: warnEvs ++
    (if dns_create.isEmpty && dns_update.isEmpty && dns_delete.isEmpty then
       reports ++ [Event.dnsInSync]
     else if dry_run then reports
     else reports ++
       applyDnsChanges env existing_records dns_create dns_update dns_delete)

/-- `TunnelConfigManager.sync` as its event trace, given the already-loaded
local routes and the already-fetched remote routes: report the route action
set; when there are changes and this is not a dry run, push the whole
rebuilt configuration (an HTTP error prints the error and exits — nothing
after it runs); finally `sync_dns_records`. -/
def sync (π : List String → List String) (env : Env) (manage_dns : Bool)
    (local_routes remote_routes : List TunnelRoute) (dry_run : Bool) :
    List Event :=
  let actions := compare_routes π local_routes remote_routes
  let reports := actions.create.map Event.reportRouteCreate ++
      actions.update.map Event.reportRouteUpdate ++
      actions.delete.map Event.reportRouteDelete
  if !actions.has_changes then
    reports ++ Event.noRouteChanges ::
      sync_dns_records π env manage_dns local_routes dry_run
  else if dry_run then
    reports ++ Event.dryRunNotice ::
      sync_dns_records π env manage_dns local_routes dry_run
  else
    reports ++
      Event.mutUpdateTunnelConfig (build_cloudflare_config local_routes) ::
      (match env.updateConfigOutcome with
       | Except.ok _ => sync_dns_records π env manage_dns local_routes dry_run
       | Except.error _ => [Event.routeApplyError, Event.exitError])

/-! ### Properties of the Python dict embedding -/

theorem pyLookup_cons {α : Type} (kv : String × α) (d : List (String × α))
    (k : String) :
    pyLookup (kv :: d) k = if kv.1 == k then some kv.2 else pyLookup d k := by
  simp only [pyLookup, List.find?_cons]
  cases h : (kv.1 == k) <;> simp [h]

theorem pyLookup_eq_none {α : Type} (d : List (String × α)) (k : String) :
    pyLookup d k = none ↔ ∀ kv ∈ d, kv.1 ≠ k := by
  simp [pyLookup, List.find?_eq_none]

theorem keys_contains {α : Type} (d : List (String × α)) (k : String) :
    (d.map Prod.fst).contains k = true ↔ ∃ kv ∈ d, kv.1 = k := by
  simp [List.contains, List.mem_map]

theorem pyLookup_isSome {α : Type} {d : List (String × α)} {k : String} :
    (∃ v, pyLookup d k = some v) ↔ (d.map Prod.fst).contains k = true := by
  rw [keys_contains]
  constructor
  · rintro ⟨v, hv⟩
    rcases Option.map_eq_some'.1 hv with ⟨kv, hfind, _⟩
    exact ⟨kv, List.mem_of_find?_eq_some hfind,
      by simpa using List.find?_some hfind⟩
  · rintro ⟨kv, hkv, he⟩
    have hs : (List.find? (fun kv => kv.1 == k) d).isSome = true :=
      List.find?_isSome.2 ⟨kv, hkv, by simp [he]⟩
    rcases Option.isSome_iff_exists.1 hs with ⟨kv', hkv'⟩
    exact ⟨kv'.2, by simp [pyLookup, hkv']⟩

theorem map_overwrite_id {α : Type} (d : List (String × α)) (k : String) (v : α)
    (h : ∀ kv ∈ d, kv.1 ≠ k) :
    d.map (fun kv => if kv.1 == k then (k, v) else kv) = d := by
  conv_rhs => rw [← List.map_id d]
  exact List.map_congr_left (fun kv hkv => by simp [h kv hkv])

theorem pyInsert_cons_ne {α : Type} (x : String × α) (d : List (String × α))
    (k : String) (v : α) (h : x.1 ≠ k) :
    pyInsert (x :: d) k v = x :: pyInsert d k v := by
  have hx : (x.1 == k) = false := by simp [h]
  have hc : ((x :: d).map Prod.fst).contains k = (d.map Prod.fst).contains k := by
    simp [List.contains_cons, Ne.symm h]
  simp only [pyInsert, hc]
  cases hcd : (d.map Prod.fst).contains k <;> simp [hcd, hx, h]

theorem pyInsert_keys {α : Type} (d : List (String × α)) (k : String) (v : α) :
    (pyInsert d k v).map Prod.fst =
      if (d.map Prod.fst).contains k then d.map Prod.fst
      else d.map Prod.fst ++ [k] := by
  simp only [pyInsert]
  split
  · simp only [List.map_map]
    exact List.map_congr_left (fun kv _ => by by_cases h : kv.1 = k <;> simp [h])
  · simp

theorem pyInsert_wf {α : Type} (d : List (String × α)) (k : String) (v : α)
    (h : (d.map Prod.fst).Nodup) :
    ((pyInsert d k v).map Prod.fst).Nodup := by
  rw [pyInsert_keys]
  split
  · exact h
  · next hc =>
    refine h.append (List.nodup_singleton k) ?_
    rw [List.disjoint_singleton]
    simpa [List.contains] using hc

theorem pyLookup_pyInsert {α : Type} (d : List (String × α)) (k k' : String)
    (v : α) (h : (d.map Prod.fst).Nodup) :
    pyLookup (pyInsert d k v) k' = if k' = k then some v else pyLookup d k' := by
  induction d with
  | nil =>
    have h1 : pyInsert ([] : List (String × α)) k v = [(k, v)] := by
      simp [pyInsert]
    rw [h1, pyLookup_cons]
    by_cases hk : k' = k
    · simp [hk]
    · have hb : (k == k') = false := by simpa using Ne.symm hk
      simp [hb, hk, pyLookup]
  | cons x rest ih =>
    have h' : (x.1 :: rest.map Prod.fst).Nodup := by
      rw [List.map_cons] at h; exact h
    have hx1 : x.1 ∉ rest.map Prod.fst := (List.nodup_cons.1 h').1
    have hrest : (rest.map Prod.fst).Nodup := (List.nodup_cons.1 h').2
    by_cases hx : x.1 = k
    · have hmap : pyInsert (x :: rest) k v = (k, v) :: rest := by
        have hcon : (x.1 :: rest.map Prod.fst).contains k = true := by
          have hc := (keys_contains (x :: rest) k).2 ⟨x, List.mem_cons_self _ _, hx⟩
          simpa using hc
        have hxb : (x.1 == k) = true := by simpa using hx
        simp only [pyInsert, List.map_cons, hcon, if_true, hxb]
        rw [map_overwrite_id]
        intro kv hkv he
        refine hx1 ?_
        rw [hx, ← he]
        exact List.mem_map.2 ⟨kv, hkv, rfl⟩
      rw [hmap, pyLookup_cons, pyLookup_cons]
      by_cases hk : k' = k
      · simp [hk]
      · have hb1 : (k == k') = false := by simpa using Ne.symm hk
        have hb2 : (x.1 == k') = false := by
          rw [hx]; simpa using Ne.symm hk
        simp [hb1, hb2, hk]
    · rw [pyInsert_cons_ne x rest k v hx, pyLookup_cons, pyLookup_cons]
      by_cases hk : k' = x.1
      · have hb : (x.1 == k') = true := by simpa using hk.symm
        have hne : ¬(k' = k) := by rw [hk]; exact hx
        simp [hb, hne]
      · have hb : (x.1 == k') = false := by simpa using Ne.symm hk
        simp only [hb, if_false]
        exact ih hrest

theorem foldl_pyInsert_fresh (routes : List TunnelRoute) :
    ∀ init : List (String × TunnelRoute),
      (∀ r ∈ routes, r.hostname ∉ init.map Prod.fst) →
      (routes.map TunnelRoute.hostname).Nodup →
      routes.foldl (fun d r => pyInsert d r.hostname r) init =
        init ++ routes.map (fun r => (r.hostname, r)) := by
  induction routes with
  | nil => intro init _ _; simp
  | cons r rest ih =>
    intro init hfresh hnd
    have hcon : (init.map Prod.fst).contains r.hostname = false := by
      rw [Bool.eq_false_iff]
      intro hc
      exact hfresh r (List.mem_cons_self _ _) (by simpa [List.contains] using hc)
    have hstep : pyInsert init r.hostname r = init ++ [(r.hostname, r)] := by
      simp only [pyInsert, hcon]
      simp
    simp only [List.foldl_cons, hstep]
    rw [ih (init ++ [(r.hostname, r)]) ?_ ?_]
    · simp
    · intro q hq
      simp only [List.map_append, List.mem_append]
      rintro (hq1 | hq2)
      · exact hfresh q (List.mem_cons_of_mem _ hq) hq1
      · have heq : q.hostname = r.hostname := by simpa using hq2
        have hrh : r.hostname ∈ rest.map TunnelRoute.hostname :=
          List.mem_map.2 ⟨q, hq, heq⟩
        have hnd' : (r.hostname :: rest.map TunnelRoute.hostname).Nodup := by
          rw [List.map_cons] at hnd; exact hnd
        exact (List.nodup_cons.1 hnd').1 hrh
    · have hnd' : (r.hostname :: rest.map TunnelRoute.hostname).Nodup := by
        rw [List.map_cons] at hnd; exact hnd
      exact (List.nodup_cons.1 hnd').2

theorem buildRouteDict_eq_map (routes : List TunnelRoute)
    (h : (routes.map TunnelRoute.hostname).Nodup) :
    buildRouteDict routes = routes.map (fun r => (r.hostname, r)) := by
  simpa [buildRouteDict] using foldl_pyInsert_fresh routes [] (by simp) h

theorem pyLookup_map_pair (routes : List TunnelRoute) (k : String) :
    pyLookup (routes.map fun r => (r.hostname, r)) k =
      routes.find? (fun r => r.hostname == k) := by
  induction routes with
  | nil => rfl
  | cons r rest ih =>
    rw [List.map_cons, pyLookup_cons, List.find?_cons]
    cases h : (r.hostname == k) <;> simp [h, ih]

theorem find?_hostname_of_mem (routes : List TunnelRoute) (r : TunnelRoute)
    (h : (routes.map TunnelRoute.hostname).Nodup) (hr : r ∈ routes) :
    routes.find? (fun q => q.hostname == r.hostname) = some r := by
  induction routes with
  | nil => cases hr
  | cons x rest ih =>
    rcases List.mem_cons.1 hr with he | hm
    · subst he; simp [List.find?_cons]
    · have h' : (x.hostname :: rest.map TunnelRoute.hostname).Nodup := by
        rw [List.map_cons] at h; exact h
      have hx : x.hostname ≠ r.hostname := by
        intro he
        exact (List.nodup_cons.1 h').1 (he ▸ List.mem_map.2 ⟨r, hm, rfl⟩)
      rw [List.find?_cons]
      have hb : (x.hostname == r.hostname) = false := by simpa using hx
      simp only [hb]
      exact ih (List.nodup_cons.1 h').2 hm

/-! ### Characterizing the buckets of compare_routes -/

theorem optBindSome {α : Type} (o : Option α) : o.bind some = o := by
  cases o <;> rfl

theorem filterMap_guard_eq_filter {α : Type} (p : α → Bool) (l : List α) :
    l.filterMap (fun a => if p a then some a else none) = l.filter p := by
  induction l with
  | nil => rfl
  | cons x xs ih => by_cases h : p x <;> simp [h, ih]

theorem filterMap_lookup_cons {β : Type} (ks : List String) (k0 : String)
    (v0 : TunnelRoute) (d : List (String × TunnelRoute))
    (G : TunnelRoute → Option β) (h : ∀ k ∈ ks, k ≠ k0) :
    ks.filterMap (fun k => (pyLookup ((k0, v0) :: d) k).bind G) =
      ks.filterMap (fun k => (pyLookup d k).bind G) := by
  refine List.filterMap_congr (fun k hk => ?_)
  rw [pyLookup_cons]
  have hb : (k0 == k) = false := by simpa using Ne.symm (h k hk)
  simp [hb]

theorem filterMap_lookup_keys {β : Type} (lcl : List TunnelRoute)
    (hl : (lcl.map TunnelRoute.hostname).Nodup) (p : String → Bool)
    (G : TunnelRoute → Option β) :
    ((lcl.map TunnelRoute.hostname).filter p).filterMap
        (fun k => (pyLookup (lcl.map fun r => (r.hostname, r)) k).bind G) =
      lcl.filterMap (fun r => if p r.hostname then G r else none) := by
  induction lcl with
  | nil => rfl
  | cons r rest ih =>
    have h' : (r.hostname :: rest.map TunnelRoute.hostname).Nodup := by
      rw [List.map_cons] at hl; exact hl
    have hfresh : r.hostname ∉ rest.map TunnelRoute.hostname :=
      (List.nodup_cons.1 h').1
    have hrest := (List.nodup_cons.1 h').2
    have hcons : ∀ q : List String, (∀ k ∈ q, k ∈ rest.map TunnelRoute.hostname) →
        q.filterMap
          (fun k => (pyLookup ((r.hostname, r) ::
            rest.map fun x => (x.hostname, x)) k).bind G) =
        q.filterMap
          (fun k => (pyLookup (rest.map fun x => (x.hostname, x)) k).bind G) := by
      intro q hq
      refine filterMap_lookup_cons q r.hostname r _ G (fun k hk he => ?_)
      exact hfresh (he ▸ hq k hk)
    rw [List.map_cons, List.map_cons]
    by_cases hp : p r.hostname
    · rw [List.filter_cons_of_pos hp, List.filterMap_cons, List.filterMap_cons]
      have hhead : pyLookup ((r.hostname, r) ::
          rest.map fun x => (x.hostname, x)) r.hostname = some r := by
        rw [pyLookup_cons]; simp
      rw [hhead]
      have htail := hcons ((rest.map TunnelRoute.hostname).filter p)
        (fun k hk => List.mem_of_mem_filter hk)
      rw [htail, ih hrest]
      simp only [hp, if_true]
      cases hG : G r <;> simp [hG]
    · rw [List.filter_cons_of_neg hp]
      have htail := hcons ((rest.map TunnelRoute.hostname).filter p)
        (fun k hk => List.mem_of_mem_filter hk)
      rw [htail, ih hrest, List.filterMap_cons]
      simp [hp]

theorem pyLookup_map_pair_hostname {lcl : List TunnelRoute} {h : String}
    {r : TunnelRoute} (he : pyLookup (lcl.map fun q => (q.hostname, q)) h = some r) :
    r.hostname = h := by
  rw [pyLookup_map_pair] at he
  simpa using List.find?_some he

/-- `compare_routes` with both dicts rewritten away, under distinct hostnames
on each side. -/
theorem compare_routes_eq (π : List String → List String)
    (lcl rmt : List TunnelRoute)
    (hl : (lcl.map TunnelRoute.hostname).Nodup)
    (hr : (rmt.map TunnelRoute.hostname).Nodup) :
    compare_routes π lcl rmt =
      { create := (π ((lcl.map TunnelRoute.hostname).filter
            (fun h => !(rmt.map TunnelRoute.hostname).contains h))).filterMap
            (fun h => pyLookup (lcl.map fun r => (r.hostname, r)) h)
        delete := (π ((rmt.map TunnelRoute.hostname).filter
            (fun h => !(lcl.map TunnelRoute.hostname).contains h))).filterMap
            (fun h => pyLookup (rmt.map fun r => (r.hostname, r)) h)
        update := (π ((lcl.map TunnelRoute.hostname).filter
            (fun h => (rmt.map TunnelRoute.hostname).contains h))).filterMap
            (fun h =>
              match pyLookup (lcl.map fun r => (r.hostname, r)) h,
                    pyLookup (rmt.map fun r => (r.hostname, r)) h with
              | some lr, some rr => if routeBeq lr rr then none else some lr
              | _, _ => none) } := by
  unfold compare_routes
  rw [buildRouteDict_eq_map lcl hl, buildRouteDict_eq_map rmt hr]
  simp only [List.map_map]
  rfl

theorem compare_create_perm (π : List String → List String)
    (hπ : ∀ l, (π l).Perm l) (lcl rmt : List TunnelRoute)
    (hl : (lcl.map TunnelRoute.hostname).Nodup)
    (hr : (rmt.map TunnelRoute.hostname).Nodup) :
    (compare_routes π lcl rmt).create.Perm
      (lcl.filter
        (fun r => !(rmt.map TunnelRoute.hostname).contains r.hostname)) := by
  rw [compare_routes_eq π lcl rmt hl hr]
  refine (List.Perm.filterMap _ (hπ _)).trans ?_
  have heq : ((lcl.map TunnelRoute.hostname).filter
        (fun h => !(rmt.map TunnelRoute.hostname).contains h)).filterMap
        (fun h => pyLookup (lcl.map fun r => (r.hostname, r)) h) =
      lcl.filter (fun r => !(rmt.map TunnelRoute.hostname).contains r.hostname) := by
    rw [List.filterMap_congr (fun k _ => (optBindSome _).symm),
      filterMap_lookup_keys lcl hl _ some,
      filterMap_guard_eq_filter (fun r => !(rmt.map TunnelRoute.hostname).contains r.hostname) lcl]
  rw [heq]

theorem compare_delete_perm (π : List String → List String)
    (hπ : ∀ l, (π l).Perm l) (lcl rmt : List TunnelRoute)
    (hl : (lcl.map TunnelRoute.hostname).Nodup)
    (hr : (rmt.map TunnelRoute.hostname).Nodup) :
    (compare_routes π lcl rmt).delete.Perm
      (rmt.filter
        (fun r => !(lcl.map TunnelRoute.hostname).contains r.hostname)) := by
  rw [compare_routes_eq π lcl rmt hl hr]
  refine (List.Perm.filterMap _ (hπ _)).trans ?_
  have heq : ((rmt.map TunnelRoute.hostname).filter
        (fun h => !(lcl.map TunnelRoute.hostname).contains h)).filterMap
        (fun h => pyLookup (rmt.map fun r => (r.hostname, r)) h) =
      rmt.filter (fun r => !(lcl.map TunnelRoute.hostname).contains r.hostname) := by
    rw [List.filterMap_congr (fun k _ => (optBindSome _).symm),
      filterMap_lookup_keys rmt hr _ some,
      filterMap_guard_eq_filter (fun r => !(lcl.map TunnelRoute.hostname).contains r.hostname) rmt]
  rw [heq]

theorem compare_update_perm (π : List String → List String)
    (hπ : ∀ l, (π l).Perm l) (lcl rmt : List TunnelRoute)
    (hl : (lcl.map TunnelRoute.hostname).Nodup)
    (hr : (rmt.map TunnelRoute.hostname).Nodup) :
    (compare_routes π lcl rmt).update.Perm
      (lcl.filterMap (fun r =>
        match rmt.find? (fun q => q.hostname == r.hostname) with
        | some q => if routeBeq r q then none else some r
        | none => none)) := by
  rw [compare_routes_eq π lcl rmt hl hr]
  refine (List.Perm.filterMap _ (hπ _)).trans ?_
  have hfun : ∀ k,
      (match pyLookup (lcl.map fun r => (r.hostname, r)) k,
             pyLookup (rmt.map fun r => (r.hostname, r)) k with
       | some lr, some rr => if routeBeq lr rr then none else some lr
       | _, _ => none) =
      (pyLookup (lcl.map fun r => (r.hostname, r)) k).bind (fun lr =>
        match pyLookup (rmt.map fun r => (r.hostname, r)) lr.hostname with
        | some rr => if routeBeq lr rr then none else some lr
        | none => none) := by
    intro k
    cases hfind : pyLookup (lcl.map fun r => (r.hostname, r)) k with
    | none => rfl
    | some lr =>
      rw [Option.some_bind, pyLookup_map_pair_hostname hfind]
      cases pyLookup (rmt.map fun r => (r.hostname, r)) k <;> rfl
  have heq : ((lcl.map TunnelRoute.hostname).filter
        (fun h => (rmt.map TunnelRoute.hostname).contains h)).filterMap
        (fun h =>
          match pyLookup (lcl.map fun r => (r.hostname, r)) h,
                pyLookup (rmt.map fun r => (r.hostname, r)) h with
          | some lr, some rr => if routeBeq lr rr then none else some lr
          | _, _ => none) =
      lcl.filterMap (fun r =>
        match rmt.find? (fun q => q.hostname == r.hostname) with
        | some q => if routeBeq r q then none else some r
        | none => none) := by
    rw [List.filterMap_congr (fun k _ => hfun k),
      filterMap_lookup_keys lcl hl _ _]
    refine List.filterMap_congr (fun r _ => ?_)
    rw [pyLookup_map_pair]
    by_cases hc : (rmt.map TunnelRoute.hostname).contains r.hostname
    · rw [if_pos hc]
    · have hnone : rmt.find? (fun q => q.hostname == r.hostname) = none := by
        rw [List.find?_eq_none]
        intro q hq hb
        refine absurd ?_ hc
        have hm : r.hostname ∈ rmt.map TunnelRoute.hostname :=
          List.mem_map.2 ⟨q, hq, by simpa using hb⟩
        simpa [List.contains] using hm
      rw [if_neg hc, hnone]
  rw [heq]

theorem mem_create_iff (π : List String → List String)
    (hπ : ∀ l, (π l).Perm l) (lcl rmt : List TunnelRoute)
    (hl : (lcl.map TunnelRoute.hostname).Nodup)
    (hr : (rmt.map TunnelRoute.hostname).Nodup) (r : TunnelRoute) :
    r ∈ (compare_routes π lcl rmt).create ↔
      r ∈ lcl ∧ ∀ q ∈ rmt, q.hostname ≠ r.hostname := by
  rw [(compare_create_perm π hπ lcl rmt hl hr).mem_iff, List.mem_filter]
  simp [List.contains, List.mem_map]

theorem mem_delete_iff (π : List String → List String)
    (hπ : ∀ l, (π l).Perm l) (lcl rmt : List TunnelRoute)
    (hl : (lcl.map TunnelRoute.hostname).Nodup)
    (hr : (rmt.map TunnelRoute.hostname).Nodup) (r : TunnelRoute) :
    r ∈ (compare_routes π lcl rmt).delete ↔
      r ∈ rmt ∧ ∀ q ∈ lcl, q.hostname ≠ r.hostname := by
  rw [(compare_delete_perm π hπ lcl rmt hl hr).mem_iff, List.mem_filter]
  simp [List.contains, List.mem_map]

theorem mem_update_iff (π : List String → List String)
    (hπ : ∀ l, (π l).Perm l) (lcl rmt : List TunnelRoute)
    (hl : (lcl.map TunnelRoute.hostname).Nodup)
    (hr : (rmt.map TunnelRoute.hostname).Nodup) (r : TunnelRoute) :
    r ∈ (compare_routes π lcl rmt).update ↔
      r ∈ lcl ∧ ∃ q ∈ rmt, q.hostname = r.hostname ∧ routeBeq r q = false := by
  rw [(compare_update_perm π hπ lcl rmt hl hr).mem_iff, List.mem_filterMap]
  constructor
  · rintro ⟨a, ha, hfa⟩
    cases hfind : rmt.find? (fun q => q.hostname == a.hostname) with
    | none => rw [hfind] at hfa; cases hfa
    | some q =>
      rw [hfind] at hfa
      cases hbeq : routeBeq a q with
      | true => simp [hbeq] at hfa
      | false =>
        simp [hbeq] at hfa
        subst hfa
        exact ⟨ha, q, List.mem_of_find?_eq_some hfind,
          (by simpa using List.find?_some hfind), hbeq⟩
  · rintro ⟨hmem, q, hq, hhost, hbeq⟩
    refine ⟨r, hmem, ?_⟩
    have hfind : rmt.find? (fun p => p.hostname == r.hostname) = some q := by
      have := find?_hostname_of_mem rmt q hr hq
      rw [hhost] at this
      exact this
    rw [hfind]
    simp [hbeq]

theorem hostname_inj {routes : List TunnelRoute}
    (h : (routes.map TunnelRoute.hostname).Nodup) {a b : TunnelRoute}
    (ha : a ∈ routes) (hb : b ∈ routes) (he : a.hostname = b.hostname) :
    a = b := by
  have h1 := find?_hostname_of_mem routes a h ha
  have h2 := find?_hostname_of_mem routes b h hb
  rw [he] at h1
  rw [h1] at h2
  injection h2

/-! ### The value-equality rule on routes -/

theorem pyLookup_of_mem_wf {α : Type} {d : List (String × α)}
    (h : (d.map Prod.fst).Nodup) {kv : String × α} (hkv : kv ∈ d) :
    pyLookup d kv.1 = some kv.2 := by
  induction d with
  | nil => cases hkv
  | cons x rest ih =>
    have h' : (x.1 :: rest.map Prod.fst).Nodup := by
      rw [List.map_cons] at h; exact h
    rcases List.mem_cons.1 hkv with he | hm
    · subst he; rw [pyLookup_cons]; simp
    · have hx : x.1 ≠ kv.1 := by
        intro heq
        exact (List.nodup_cons.1 h').1 (heq ▸ List.mem_map.2 ⟨kv, hm, rfl⟩)
      rw [pyLookup_cons]
      have hb : (x.1 == kv.1) = false := by simpa using hx
      simp only [hb, if_false]
      exact ih (List.nodup_cons.1 h').2 hm

theorem dictBeq_refl (d : Dict) (h : Dict.WF d) : dictBeq d d = true := by
  have hall : d.all (fun kv => pyLookup d kv.1 == some kv.2) = true := by
    rw [List.all_eq_true]
    intro kv hkv
    simp [pyLookup_of_mem_wf h hkv]
  unfold dictBeq
  rw [hall]
  rfl

theorem routeBeq_refl (r : TunnelRoute) (h : r.WF) : routeBeq r r = true := by
  unfold routeBeq
  cases hor : r.originRequest with
  | none => simp
  | some d => simp [dictBeq_refl d (h d hor)]

theorem dictBeq_symm (d1 d2 : Dict) : dictBeq d1 d2 = dictBeq d2 d1 := by
  unfold dictBeq
  exact Bool.and_comm _ _

theorem string_beq_comm (x y : String) : (x == y) = (y == x) := by
  by_cases h : x = y
  · subst h; rfl
  · have h1 : (x == y) = false := by simpa using h
    have h2 : (y == x) = false := by simpa using Ne.symm h
    rw [h1, h2]

theorem routeBeq_symm (a b : TunnelRoute) : routeBeq a b = routeBeq b a := by
  unfold routeBeq
  rw [string_beq_comm a.hostname b.hostname, string_beq_comm a.service b.service]
  cases a.originRequest with
  | none => cases b.originRequest <;> rfl
  | some d1 =>
    cases b.originRequest with
    | none => rfl
    | some d2 =>
      exact congrArg
        (fun t => b.hostname == a.hostname && (b.service == a.service) && t)
        (dictBeq_symm d1 d2)

theorem dictBeq_of_perm (d1 d2 : Dict) (h1 : Dict.WF d1) (hp : d1.Perm d2) :
    dictBeq d1 d2 = true := by
  have h2 : Dict.WF d2 := List.Nodup.perm h1 (hp.map Prod.fst)
  unfold dictBeq
  rw [Bool.and_eq_true]
  constructor <;> rw [List.all_eq_true]
  · intro kv hkv
    simp [pyLookup_of_mem_wf h2 (hp.mem_iff.1 hkv)]
  · intro kv hkv
    simp [pyLookup_of_mem_wf h1 (hp.mem_iff.2 hkv)]

/-! ### Claim theorems: the route reconciler -/

/-- C1: for desired and actual route lists with pairwise-distinct hostnames,
`compare_routes` puts in `create` exactly the desired entries whose hostname
appears in no actual entry, in `delete` exactly the actual-side entries whose
hostname appears in no desired entry, in `update` exactly the desired-side
versions of entries present on both sides but unequal under the value-equality
rule, and a hostname whose two sides are equal appears in no bucket. -/
theorem compare_routes_partition (π : List String → List String)
    (hπ : ∀ l, (π l).Perm l) (lcl rmt : List TunnelRoute)
    (hl : (lcl.map TunnelRoute.hostname).Nodup)
    (hr : (rmt.map TunnelRoute.hostname).Nodup) :
    (∀ r, r ∈ (compare_routes π lcl rmt).create ↔
        r ∈ lcl ∧ ∀ q ∈ rmt, q.hostname ≠ r.hostname) ∧
    (∀ r, r ∈ (compare_routes π lcl rmt).delete ↔
        r ∈ rmt ∧ ∀ q ∈ lcl, q.hostname ≠ r.hostname) ∧
    (∀ r, r ∈ (compare_routes π lcl rmt).update ↔
        r ∈ lcl ∧ ∃ q ∈ rmt, q.hostname = r.hostname ∧ routeBeq r q = false) ∧
    (∀ r q, r ∈ lcl → q ∈ rmt → q.hostname = r.hostname → routeBeq r q = true →
      ∀ x, (x ∈ (compare_routes π lcl rmt).create ∨
            x ∈ (compare_routes π lcl rmt).update ∨
            x ∈ (compare_routes π lcl rmt).delete) → x.hostname ≠ r.hostname) := by
  refine ⟨mem_create_iff π hπ lcl rmt hl hr,
          mem_delete_iff π hπ lcl rmt hl hr,
          mem_update_iff π hπ lcl rmt hl hr, ?_⟩
  intro r q hrl hqm hqh hbeq x hx hxh
  rcases hx with hx | hx | hx
  · rcases (mem_create_iff π hπ lcl rmt hl hr x).1 hx with ⟨_, hno⟩
    exact hno q hqm (by rw [hqh, hxh])
  · rcases (mem_update_iff π hπ lcl rmt hl hr x).1 hx with
      ⟨hxl, q', hq', hq'h, hq'b⟩
    have hxr : x = r := hostname_inj hl hxl hrl hxh
    subst hxr
    have hq'q : q' = q := hostname_inj hr hq' hqm (hq'h.trans hqh.symm)
    rw [hq'q, hbeq] at hq'b
    exact absurd hq'b (by decide)
  · rcases (mem_delete_iff π hπ lcl rmt hl hr x).1 hx with ⟨_, hno⟩
    exact (hno r hrl) hxh.symm

/-- Witness for C1 at a concrete input: a desired-only hostname lands in the
create bucket. -/
theorem compare_routes_partition_witness :
    (⟨"a.example.com", "http://10.0.0.1:8080", none⟩ : TunnelRoute) ∈
      (compare_routes id [⟨"a.example.com", "http://10.0.0.1:8080", none⟩]
        []).create :=
  ((compare_routes_partition id (fun l => List.Perm.refl l)
      [⟨"a.example.com", "http://10.0.0.1:8080", none⟩] [] (by decide)
      (by decide)).1
    ⟨"a.example.com", "http://10.0.0.1:8080", none⟩).2
    ⟨by decide, by decide⟩

/-- C2: reconciliation is idempotent.  The apply step is whole-document
(`build_cloudflare_config` pushes the full desired list), so the actual state
after applying the first action set equals the desired list `D`; comparing
again yields empty buckets. -/
theorem compare_routes_idempotent (π' : List String → List String)
    (hπ' : ∀ l, (π' l).Perm l) (D A' : List TunnelRoute)
    (hD : (D.map TunnelRoute.hostname).Nodup)
    (hWF : ∀ r ∈ D, r.WF)
    (happly : A' = D) :
    (compare_routes π' D A').create = [] ∧
    (compare_routes π' D A').update = [] ∧
    (compare_routes π' D A').delete = [] ∧
    (compare_routes π' D A').has_changes = false := by
  rw [happly]
  have hpe : π' [] = [] := (hπ' []).eq_nil
  have hfil : (D.map TunnelRoute.hostname).filter
      (fun h => !(D.map TunnelRoute.hostname).contains h) = [] := by
    rw [List.filter_eq_nil_iff]
    intro h hh
    simp [List.contains, hh]
  have hmain : compare_routes π' D D =
      { create := [], update := [], delete := [] } := by
    rw [compare_routes_eq π' D D hD hD]
    have h3 : (π' ((D.map TunnelRoute.hostname).filter
        (fun h => (D.map TunnelRoute.hostname).contains h))).filterMap
        (fun h =>
          match pyLookup (D.map fun r => (r.hostname, r)) h,
                pyLookup (D.map fun r => (r.hostname, r)) h with
          | some lr, some rr => if routeBeq lr rr then none else some lr
          | _, _ => none) = [] := by
      rw [List.filterMap_eq_nil_iff]
      intro h hh
      have hmem : h ∈ D.map TunnelRoute.hostname :=
        List.mem_of_mem_filter ((hπ' _).mem_iff.1 hh)
      rcases List.mem_map.1 hmem with ⟨r, hrD, hrh⟩
      have hlook : pyLookup (D.map fun r => (r.hostname, r)) h = some r := by
        rw [pyLookup_map_pair, ← hrh]
        exact find?_hostname_of_mem D r hD hrD
      rw [hlook]
      simp [routeBeq_refl r (hWF r hrD)]
    rw [hfil, hpe, h3]
    rfl
  rw [hmain]
  refine ⟨rfl, rfl, rfl, rfl⟩

/-- Witness for C2 at a concrete input: after a whole-document apply the
action set is empty. -/
theorem compare_routes_idempotent_witness :
    (compare_routes id [⟨"a.example.com", "http://10.0.0.1:8080", none⟩]
      [⟨"a.example.com", "http://10.0.0.1:8080", none⟩]).has_changes = false :=
  (compare_routes_idempotent id (fun l => List.Perm.refl l)
      [⟨"a.example.com", "http://10.0.0.1:8080", none⟩] _
      (by decide) (by decide) rfl).2.2.2

/-- C5 counterexample: the buckets are filled by iterating Python sets, whose
iteration order is an arbitrary permutation of the elements (and varies with
hash randomization).  Under the legitimate iteration order `List.reverse`
(shown to be a permutation at the relevant key list), the create bucket does
not preserve the desired-state input order, and two legitimate orders give
two different bucket sequences, so the claimed ordering and cross-run
determinism fail. -/
theorem bucket_order_cex :
    (List.reverse ["b.example.com", "a.example.com"]).Perm
      ["b.example.com", "a.example.com"] ∧
    (compare_routes List.reverse
        [⟨"b.example.com", "svc-b", none⟩, ⟨"a.example.com", "svc-a", none⟩]
        []).create =
      [⟨"a.example.com", "svc-a", none⟩, ⟨"b.example.com", "svc-b", none⟩] ∧
    (compare_routes id
        [⟨"b.example.com", "svc-b", none⟩, ⟨"a.example.com", "svc-a", none⟩]
        []).create =
      [⟨"b.example.com", "svc-b", none⟩, ⟨"a.example.com", "svc-a", none⟩] ∧
    ([⟨"a.example.com", "svc-a", none⟩, ⟨"b.example.com", "svc-b", none⟩] :
        List TunnelRoute) ≠
      [⟨"b.example.com", "svc-b", none⟩, ⟨"a.example.com", "svc-a", none⟩] := by
  refine ⟨by decide, by decide, by decide, by decide⟩

/-- C5 (amended): within each bucket the entries are exactly the
corresponding desired-side (create, update) or actual-side (delete) entries,
but only up to permutation: the order is the Python set-iteration order,
which is unspecified and need not follow input order nor repeat across
runs. -/
theorem bucket_contents_perm (π : List String → List String)
    (hπ : ∀ l, (π l).Perm l) (lcl rmt : List TunnelRoute)
    (hl : (lcl.map TunnelRoute.hostname).Nodup)
    (hr : (rmt.map TunnelRoute.hostname).Nodup) :
    (compare_routes π lcl rmt).create.Perm
      (lcl.filter
        (fun r => !(rmt.map TunnelRoute.hostname).contains r.hostname)) ∧
    (compare_routes π lcl rmt).update.Perm
      (lcl.filterMap (fun r =>
        match rmt.find? (fun q => q.hostname == r.hostname) with
        | some q => if routeBeq r q then none else some r
        | none => none)) ∧
    (compare_routes π lcl rmt).delete.Perm
      (rmt.filter
        (fun r => !(lcl.map TunnelRoute.hostname).contains r.hostname)) :=
  ⟨compare_create_perm π hπ lcl rmt hl hr,
   compare_update_perm π hπ lcl rmt hl hr,
   compare_delete_perm π hπ lcl rmt hl hr⟩

/-- Witness for the amended C5 at a concrete input and the reversed
iteration order. -/
theorem bucket_contents_perm_witness :
    (compare_routes List.reverse
        [⟨"b.example.com", "svc-b", none⟩, ⟨"a.example.com", "svc-a", none⟩]
        []).create.Perm
      ([⟨"b.example.com", "svc-b", none⟩,
        ⟨"a.example.com", "svc-a", none⟩].filter
        (fun r => !((([] : List TunnelRoute)).map
          TunnelRoute.hostname).contains r.hostname)) :=
  (bucket_contents_perm List.reverse (fun l => List.reverse_perm l)
      [⟨"b.example.com", "svc-b", none⟩, ⟨"a.example.com", "svc-a", none⟩] []
      (by decide) (by decide)).1

/-- C9: route-entry equality is symmetric and ignores the key order of the
origin-options mapping: same key-value pairs in any order compare equal, and
`a == b` iff `b == a`. -/
theorem route_equality_symm_keyorder :
    (∀ (h s : String) (m1 m2 : Dict), Dict.WF m1 → m1.Perm m2 →
      routeBeq ⟨h, s, some m1⟩ ⟨h, s, some m2⟩ = true) ∧
    (∀ a b : TunnelRoute, routeBeq a b = routeBeq b a) := by
  constructor
  · intro h s m1 m2 hwf hperm
    unfold routeBeq
    simp [dictBeq_of_perm m1 m2 hwf hperm]
  · exact routeBeq_symm

/-- Witness for C9: two option mappings with the same pairs in swapped order
compare equal. -/
theorem route_equality_symm_keyorder_witness :
    routeBeq
      ⟨"h.example.com", "http://10.0.0.1:1",
        some [("noTLSVerify", PyVal.pyBool true), ("keepAlive", PyVal.pyInt 2)]⟩
      ⟨"h.example.com", "http://10.0.0.1:1",
        some [("keepAlive", PyVal.pyInt 2), ("noTLSVerify", PyVal.pyBool true)]⟩
      = true :=
  route_equality_symm_keyorder.1 "h.example.com" "http://10.0.0.1:1" _ _
    (by decide) (by decide)

/-! ### The DNS reconciler: managed records and buckets -/

theorem pyLookup_none_iff_contains {α : Type} (d : List (String × α))
    (k : String) :
    pyLookup d k = none ↔ (d.map Prod.fst).contains k = false := by
  rw [pyLookup_eq_none]
  constructor
  · intro hall
    rw [Bool.eq_false_iff]
    intro hc
    rcases (keys_contains d k).1 hc with ⟨kv, hkv, he⟩
    exact hall kv hkv he
  · intro hc kv hkv he
    rw [Bool.eq_false_iff] at hc
    exact hc ((keys_contains d k).2 ⟨kv, hkv, he⟩)

theorem existing_foldl_wf (result : List DNSRecord) :
    ∀ init : List (String × DNSRecord), (init.map Prod.fst).Nodup →
      ((result.foldl
          (fun d rd => if managedRecord rd then pyInsert d rd.name rd else d)
          init).map Prod.fst).Nodup := by
  induction result with
  | nil => intro init h; simpa using h
  | cons x rest ih =>
    intro init h
    rw [List.foldl_cons]
    refine ih _ ?_
    cases hm : managedRecord x
    · simpa [hm] using h
    · simp only [hm, if_true]
      exact pyInsert_wf init x.name x h

theorem existing_wf (result : List DNSRecord) :
    (((get_existing_dns_records (Except.ok result)).1).map Prod.fst).Nodup :=
  existing_foldl_wf result [] (by simp)

theorem existing_lookup (result : List DNSRecord) (n : String) :
    pyLookup (get_existing_dns_records (Except.ok result)).1 n =
      ((result.filter (fun rd => managedRecord rd && rd.name == n)).getLast?) := by
  induction result using List.reverseRecOn with
  | nil => rfl
  | append_singleton l x ih =>
    have hfold : (get_existing_dns_records (Except.ok (l ++ [x]))).1 =
        (if managedRecord x then
          pyInsert (get_existing_dns_records (Except.ok l)).1 x.name x
         else (get_existing_dns_records (Except.ok l)).1) := by
      simp [get_existing_dns_records, List.foldl_append]
    rw [hfold, List.filter_append]
    cases hm : managedRecord x
    · rw [if_neg (by simp)]
      have hf : (List.filter (fun rd => managedRecord rd && rd.name == n) [x]) =
          [] := by simp [hm]
      rw [hf, List.append_nil, ih]
    · rw [if_pos rfl, pyLookup_pyInsert _ _ _ _ (existing_wf l)]
      by_cases hn : n = x.name
      · have hf : (List.filter (fun rd => managedRecord rd && rd.name == n) [x]) =
            [x] := by simp [hm, hn]
        rw [if_pos hn, hf, List.getLast?_concat]
      · have hb : (x.name == n) = false := by
          simpa using fun he => hn he.symm
        have hf : (List.filter (fun rd => managedRecord rd && rd.name == n) [x]) =
            [] := by simp [hb]
        rw [if_neg hn, hf, List.append_nil, ih]

theorem existing_filter_invariant (result : List DNSRecord) :
    get_existing_dns_records (Except.ok result) =
      get_existing_dns_records (Except.ok (result.filter managedRecord)) := by
  have h : ∀ init : List (String × DNSRecord),
      result.foldl
        (fun d rd => if managedRecord rd then pyInsert d rd.name rd else d) init =
      (result.filter managedRecord).foldl
        (fun d rd => if managedRecord rd then pyInsert d rd.name rd else d) init := by
    induction result with
    | nil => intro init; rfl
    | cons x rest ih =>
      intro init
      cases hm : managedRecord x
      · simp [List.filter_cons, hm, ih]
      · simp [List.filter_cons, hm, ih]
  simp [get_existing_dns_records, h]

theorem mem_dns_create_iff (π : List String → List String)
    (hπ : ∀ l, (π l).Perm l) (env : Env)
    (existing : List (String × DNSRecord)) (routes : List TunnelRoute)
    (h : String) :
    h ∈ (dns_buckets π env existing routes).1 ↔
      h ∈ routes.map TunnelRoute.hostname ∧ pyLookup existing h = none := by
  have hc : (dns_buckets π env existing routes).1 =
      π (((routes.map TunnelRoute.hostname).dedup).filter
        (fun h => !(existing.map Prod.fst).contains h)) := rfl
  rw [hc, (hπ _).mem_iff, List.mem_filter, List.mem_dedup]
  simp [pyLookup_none_iff_contains]

theorem mem_dns_update_iff (π : List String → List String)
    (hπ : ∀ l, (π l).Perm l) (env : Env)
    (existing : List (String × DNSRecord)) (routes : List TunnelRoute)
    (h : String) :
    h ∈ (dns_buckets π env existing routes).2.1 ↔
      h ∈ routes.map TunnelRoute.hostname ∧
        ∃ rd, pyLookup existing h = some rd ∧
          rd.content ≠ env.tunnel_domain := by
  have hu : (dns_buckets π env existing routes).2.1 =
      (π (((routes.map TunnelRoute.hostname).dedup).filter
        (fun h => (existing.map Prod.fst).contains h))).filter
        (fun h => match pyLookup existing h with
          | some rd => rd.content != env.tunnel_domain
          | none => false) := rfl
  rw [hu, List.mem_filter, (hπ _).mem_iff, List.mem_filter, List.mem_dedup]
  constructor
  · rintro ⟨⟨hmem, hcon⟩, hpred⟩
    refine ⟨hmem, ?_⟩
    rcases pyLookup_isSome.2 hcon with ⟨rd, hrd⟩
    refine ⟨rd, hrd, ?_⟩
    rw [hrd] at hpred
    simpa using hpred
  · rintro ⟨hmem, rd, hrd, hne⟩
    refine ⟨⟨hmem, pyLookup_isSome.1 ⟨rd, hrd⟩⟩, ?_⟩
    rw [hrd]
    simpa using hne

theorem mem_dns_delete_iff (π : List String → List String)
    (hπ : ∀ l, (π l).Perm l) (env : Env)
    (existing : List (String × DNSRecord)) (routes : List TunnelRoute)
    (h : String) :
    h ∈ (dns_buckets π env existing routes).2.2 ↔
      (∃ rd, pyLookup existing h = some rd) ∧
        h ∉ routes.map TunnelRoute.hostname := by
  have hd : (dns_buckets π env existing routes).2.2 =
      π ((existing.map Prod.fst).filter
        (fun h => !((routes.map TunnelRoute.hostname).dedup).contains h)) := rfl
  rw [hd, (hπ _).mem_iff, List.mem_filter]
  rw [pyLookup_isSome]
  simp [List.contains, List.mem_dedup]

/-! ### The DNS apply loops and the event traces -/

/-- The route report lines, in print order (creates, updates, deletes). -/
def routeReports (a : RouteActions) : List Event :=
  a.create.map Event.reportRouteCreate ++ a.update.map Event.reportRouteUpdate ++
    a.delete.map Event.reportRouteDelete

/-- The DNS report lines, in print order (creates, updates, deletes). -/
def dnsReports (c u d : List String) : List Event :=
  c.map Event.reportDnsCreate ++ u.map Event.reportDnsUpdate ++
    d.map Event.reportDnsDelete

theorem pair_sublist_append {α : Type} {a b : α} {l1 l2 : List α}
    (ha : a ∈ l1) (hb : b ∈ l2) : [a, b].Sublist (l1 ++ l2) := by
  have h1 : [a].Sublist l1 := List.singleton_sublist.2 ha
  have h2 : [b].Sublist l2 := List.singleton_sublist.2 hb
  simpa using h1.append h2

theorem applyDnsCreates_events (env : Env) (l : List String) :
    ∀ e ∈ (applyDnsCreates env l).1,
      ∃ h ∈ l, e = Event.mutCreateDns (synthRecord env h) := by
  induction l with
  | nil => intro e he; cases he
  | cons h rest ih =>
    intro e he
    cases hout : env.createDnsOutcome h with
    | ok u =>
      cases u
      simp only [applyDnsCreates, hout] at he
      rcases List.mem_cons.1 he with he | he
      · exact ⟨h, List.mem_cons_self _ _, he⟩
      · rcases ih e he with ⟨h', hh', he'⟩
        exact ⟨h', List.mem_cons_of_mem _ hh', he'⟩
    | error u =>
      cases u
      simp only [applyDnsCreates, hout] at he
      rcases List.mem_singleton.1 he with he
      exact ⟨h, List.mem_cons_self _ _, he⟩

theorem applyDnsUpdates_events (env : Env)
    (ex : List (String × DNSRecord)) (l : List String) :
    ∀ e ∈ (applyDnsUpdates env ex l).1,
      ∃ h ∈ l, ∃ exr i, pyLookup ex h = some exr ∧ exr.id = some i ∧
        i.isEmpty = false ∧ e = Event.mutUpdateDns i (synthRecord env h) := by
  induction l with
  | nil => intro e he; cases he
  | cons h rest ih =>
    intro e he
    have hskip : e ∈ (applyDnsUpdates env ex rest).1 →
        ∃ h' ∈ h :: rest, ∃ exr i, pyLookup ex h' = some exr ∧
          exr.id = some i ∧ i.isEmpty = false ∧
          e = Event.mutUpdateDns i (synthRecord env h') := by
      intro hmem
      rcases ih e hmem with ⟨h', hh', rest'⟩
      exact ⟨h', List.mem_cons_of_mem _ hh', rest'⟩
    cases hlook : pyLookup ex h with
    | none =>
      simp only [applyDnsUpdates, hlook] at he
      exact hskip he
    | some exr =>
      cases hid : exr.id with
      | none =>
        simp only [applyDnsUpdates, hlook, hid] at he
        exact hskip he
      | some i =>
        cases hemp : i.isEmpty with
        | true =>
          simp only [applyDnsUpdates, hlook, hid, hemp, if_true] at he
          exact hskip he
        | false =>
          cases hout : env.updateDnsOutcome h with
          | ok u =>
            cases u
            simp [applyDnsUpdates, hlook, hid, hemp, hout] at he
            rcases he with he | he
            · exact ⟨h, List.mem_cons_self _ _, exr, i, hlook, hid, hemp, he⟩
            · exact hskip he
          | error u =>
            cases u
            simp [applyDnsUpdates, hlook, hid, hemp, hout] at he
            exact ⟨h, List.mem_cons_self _ _, exr, i, hlook, hid, hemp, he⟩

theorem applyDnsDeletes_events (env : Env)
    (ex : List (String × DNSRecord)) (l : List String) :
    ∀ e ∈ (applyDnsDeletes env ex l).1,
      ∃ h ∈ l, ∃ exr i, pyLookup ex h = some exr ∧ exr.id = some i ∧
        i.isEmpty = false ∧ e = Event.mutDeleteDns i h := by
  induction l with
  | nil => intro e he; cases he
  | cons h rest ih =>
    intro e he
    have hskip : e ∈ (applyDnsDeletes env ex rest).1 →
        ∃ h' ∈ h :: rest, ∃ exr i, pyLookup ex h' = some exr ∧
          exr.id = some i ∧ i.isEmpty = false ∧
          e = Event.mutDeleteDns i h' := by
      intro hmem
      rcases ih e hmem with ⟨h', hh', rest'⟩
      exact ⟨h', List.mem_cons_of_mem _ hh', rest'⟩
    cases hlook : pyLookup ex h with
    | none =>
      simp only [applyDnsDeletes, hlook] at he
      exact hskip he
    | some exr =>
      cases hid : exr.id with
      | none =>
        simp only [applyDnsDeletes, hlook, hid] at he
        exact hskip he
      | some i =>
        cases hemp : i.isEmpty with
        | true =>
          simp only [applyDnsDeletes, hlook, hid, hemp, if_true] at he
          exact hskip he
        | false =>
          cases hout : env.deleteDnsOutcome h with
          | ok u =>
            cases u
            simp [applyDnsDeletes, hlook, hid, hemp, hout] at he
            rcases he with he | he
            · exact ⟨h, List.mem_cons_self _ _, exr, i, hlook, hid, hemp, he⟩
            · exact hskip he
          | error u =>
            cases u
            simp [applyDnsDeletes, hlook, hid, hemp, hout] at he
            exact ⟨h, List.mem_cons_self _ _, exr, i, hlook, hid, hemp, he⟩

theorem applyDnsCreates_ok (env : Env) (l : List String)
    (hok : ∀ h ∈ l, env.createDnsOutcome h = Except.ok ()) :
    applyDnsCreates env l =
      (l.map (fun h => Event.mutCreateDns (synthRecord env h)), true) := by
  induction l with
  | nil => rfl
  | cons h rest ih =>
    have hout := hok h (List.mem_cons_self _ _)
    have ihr := ih (fun h' hh' => hok h' (List.mem_cons_of_mem _ hh'))
    simp [applyDnsCreates, hout, ihr]

theorem applyDnsUpdates_ok (env : Env)
    (ex : List (String × DNSRecord)) (l : List String)
    (hok : ∀ h ∈ l, env.updateDnsOutcome h = Except.ok ()) :
    applyDnsUpdates env ex l =
      (l.filterMap (fun h =>
        match pyLookup ex h with
        | some exr =>
          match exr.id with
          | some i => if i.isEmpty then none
                      else some (Event.mutUpdateDns i (synthRecord env h))
          | none => none
        | none => none), true) := by
  induction l with
  | nil => rfl
  | cons h rest ih =>
    have hout := hok h (List.mem_cons_self _ _)
    have ihr := ih (fun h' hh' => hok h' (List.mem_cons_of_mem _ hh'))
    cases hlook : pyLookup ex h with
    | none => simp [applyDnsUpdates, List.filterMap_cons, hlook, ihr]
    | some exr =>
      cases hid : exr.id with
      | none => simp [applyDnsUpdates, List.filterMap_cons, hlook, hid, ihr]
      | some i =>
        cases hemp : i.isEmpty with
        | true =>
          simp [applyDnsUpdates, List.filterMap_cons, hlook, hid, hemp, ihr]
        | false =>
          simp [applyDnsUpdates, List.filterMap_cons, hlook, hid, hemp, hout,
            ihr]

theorem applyDnsDeletes_ok (env : Env)
    (ex : List (String × DNSRecord)) (l : List String)
    (hok : ∀ h ∈ l, env.deleteDnsOutcome h = Except.ok ()) :
    applyDnsDeletes env ex l =
      (l.filterMap (fun h =>
        match pyLookup ex h with
        | some exr =>
          match exr.id with
          | some i => if i.isEmpty then none
                      else some (Event.mutDeleteDns i h)
          | none => none
        | none => none), true) := by
  induction l with
  | nil => rfl
  | cons h rest ih =>
    have hout := hok h (List.mem_cons_self _ _)
    have ihr := ih (fun h' hh' => hok h' (List.mem_cons_of_mem _ hh'))
    cases hlook : pyLookup ex h with
    | none => simp [applyDnsDeletes, List.filterMap_cons, hlook, ihr]
    | some exr =>
      cases hid : exr.id with
      | none => simp [applyDnsDeletes, List.filterMap_cons, hlook, hid, ihr]
      | some i =>
        cases hemp : i.isEmpty with
        | true =>
          simp [applyDnsDeletes, List.filterMap_cons, hlook, hid, hemp, ihr]
        | false =>
          simp [applyDnsDeletes, List.filterMap_cons, hlook, hid, hemp, hout,
            ihr]

theorem applyDnsChanges_ok (env : Env) (ex : List (String × DNSRecord))
    (c u d : List String)
    (hc : ∀ h ∈ c, env.createDnsOutcome h = Except.ok ())
    (hu : ∀ h ∈ u, env.updateDnsOutcome h = Except.ok ())
    (hd : ∀ h ∈ d, env.deleteDnsOutcome h = Except.ok ()) :
    applyDnsChanges env ex c u d =
      (applyDnsCreates env c).1 ++ (applyDnsUpdates env ex u).1 ++
        (applyDnsDeletes env ex d).1 := by
  unfold applyDnsChanges
  rw [applyDnsCreates_ok env c hc, applyDnsUpdates_ok env ex u hu,
    applyDnsDeletes_ok env ex d hd]
  simp

theorem applyDnsChanges_events (env : Env) (ex : List (String × DNSRecord))
    (c u d : List String) :
    ∀ e ∈ applyDnsChanges env ex c u d,
      (∃ h ∈ c, e = Event.mutCreateDns (synthRecord env h)) ∨
      (∃ h ∈ u, ∃ exr i, pyLookup ex h = some exr ∧ exr.id = some i ∧
        i.isEmpty = false ∧ e = Event.mutUpdateDns i (synthRecord env h)) ∨
      (∃ h ∈ d, ∃ exr i, pyLookup ex h = some exr ∧ exr.id = some i ∧
        i.isEmpty = false ∧ e = Event.mutDeleteDns i h) ∨
      e = Event.dnsApplyError ∨ e = Event.exitError := by
  intro e he
  unfold applyDnsChanges at he
  cases hc2 : (applyDnsCreates env c).2 with
  | false =>
    simp only [hc2, Bool.not_false, if_true] at he
    rcases List.mem_append.1 he with he | he
    · exact Or.inl (applyDnsCreates_events env c e he)
    · simp only [List.mem_cons, List.not_mem_nil, or_false] at he
      rcases he with he | he
      · exact Or.inr (Or.inr (Or.inr (Or.inl he)))
      · exact Or.inr (Or.inr (Or.inr (Or.inr he)))
  | true =>
    simp only [hc2, Bool.not_true, Bool.false_eq_true, if_false] at he
    cases hu2 : (applyDnsUpdates env ex u).2 with
    | false =>
      simp only [hu2, Bool.not_false, if_true] at he
      rcases List.mem_append.1 he with he | he
      · rcases List.mem_append.1 he with he | he
        · exact Or.inl (applyDnsCreates_events env c e he)
        · exact Or.inr (Or.inl (applyDnsUpdates_events env ex u e he))
      · simp only [List.mem_cons, List.not_mem_nil, or_false] at he
        rcases he with he | he
        · exact Or.inr (Or.inr (Or.inr (Or.inl he)))
        · exact Or.inr (Or.inr (Or.inr (Or.inr he)))
    | true =>
      simp only [hu2, Bool.not_true, Bool.false_eq_true, if_false] at he
      cases hd2 : (applyDnsDeletes env ex d).2 with
      | false =>
        simp only [hd2, Bool.not_false, if_true] at he
        rcases List.mem_append.1 he with he | he
        · rcases List.mem_append.1 he with he | he
          · rcases List.mem_append.1 he with he | he
            · exact Or.inl (applyDnsCreates_events env c e he)
            · exact Or.inr (Or.inl (applyDnsUpdates_events env ex u e he))
          · exact Or.inr (Or.inr (Or.inl (applyDnsDeletes_events env ex d e he)))
        · simp only [List.mem_cons, List.not_mem_nil, or_false] at he
          rcases he with he | he
          · exact Or.inr (Or.inr (Or.inr (Or.inl he)))
          · exact Or.inr (Or.inr (Or.inr (Or.inr he)))
      | true =>
        simp only [hd2, Bool.not_true, Bool.false_eq_true, if_false] at he
        rcases List.mem_append.1 he with he | he
        · rcases List.mem_append.1 he with he | he
          · exact Or.inl (applyDnsCreates_events env c e he)
          · exact Or.inr (Or.inl (applyDnsUpdates_events env ex u e he))
        · exact Or.inr (Or.inr (Or.inl (applyDnsDeletes_events env ex d e he)))

theorem dnsReports_report (c u d : List String) :
    ∀ e ∈ dnsReports c u d, e.isReport = true := by
  intro e he
  unfold dnsReports at he
  rcases List.mem_append.1 he with he | he
  · rcases List.mem_append.1 he with he | he
    · rcases List.mem_map.1 he with ⟨h, _, rfl⟩; rfl
    · rcases List.mem_map.1 he with ⟨h, _, rfl⟩; rfl
  · rcases List.mem_map.1 he with ⟨h, _, rfl⟩; rfl

theorem routeReports_report (a : RouteActions) :
    ∀ e ∈ routeReports a, e.isReport = true := by
  intro e he
  unfold routeReports at he
  rcases List.mem_append.1 he with he | he
  · rcases List.mem_append.1 he with he | he
    · rcases List.mem_map.1 he with ⟨r, _, rfl⟩; rfl
    · rcases List.mem_map.1 he with ⟨r, _, rfl⟩; rfl
  · rcases List.mem_map.1 he with ⟨r, _, rfl⟩; rfl

theorem applyDnsChanges_not_report (env : Env)
    (ex : List (String × DNSRecord)) (c u d : List String) :
    ∀ e ∈ applyDnsChanges env ex c u d, e.isReport = false := by
  intro e he
  rcases applyDnsChanges_events env ex c u d e he with h | h | h | h | h
  · rcases h with ⟨_, _, rfl⟩; rfl
  · rcases h with ⟨_, _, _, _, _, _, _, rfl⟩; rfl
  · rcases h with ⟨_, _, _, _, _, _, _, rfl⟩; rfl
  · rw [h]; rfl
  · rw [h]; rfl

/-- Branch analysis of `sync_dns_records` with DNS management on: the trace
is always header, optional warning, the three report groups, then one of the
in-sync line, nothing (dry run), or the apply section. -/
theorem sync_dns_records_cases (π : List String → List String) (env : Env)
    (routes : List TunnelRoute) (dr : Bool) :
    ∃ tail,
      sync_dns_records π env true routes dr =
        Event.dnsHeader ::
          (if (get_existing_dns_records env.dnsFetch).2 then
            [Event.warnDnsFetchFailed] else []) ++
          dnsReports
            (dns_buckets π env (get_existing_dns_records env.dnsFetch).1
              routes).1
            (dns_buckets π env (get_existing_dns_records env.dnsFetch).1
              routes).2.1
            (dns_buckets π env (get_existing_dns_records env.dnsFetch).1
              routes).2.2 ++ tail ∧
      ((((dns_buckets π env (get_existing_dns_records env.dnsFetch).1
            routes).1.isEmpty &&
          (dns_buckets π env (get_existing_dns_records env.dnsFetch).1
            routes).2.1.isEmpty &&
          (dns_buckets π env (get_existing_dns_records env.dnsFetch).1
            routes).2.2.isEmpty) = true ∧ tail = [Event.dnsInSync]) ∨
        (dr = true ∧ tail = []) ∨
        (dr = false ∧ tail =
          applyDnsChanges env (get_existing_dns_records env.dnsFetch).1
            (dns_buckets π env (get_existing_dns_records env.dnsFetch).1
              routes).1
            (dns_buckets π env (get_existing_dns_records env.dnsFetch).1
              routes).2.1
            (dns_buckets π env (get_existing_dns_records env.dnsFetch).1
              routes).2.2)) := by
  unfold sync_dns_records
  simp only [Bool.not_true, Bool.false_eq_true, if_false]
  by_cases hempty :
      ((dns_buckets π env (get_existing_dns_records env.dnsFetch).1
          routes).1.isEmpty &&
        (dns_buckets π env (get_existing_dns_records env.dnsFetch).1
          routes).2.1.isEmpty &&
        (dns_buckets π env (get_existing_dns_records env.dnsFetch).1
          routes).2.2.isEmpty) = true
  · refine ⟨[Event.dnsInSync], ?_, Or.inl ⟨hempty, rfl⟩⟩
    rw [if_pos hempty]
    simp [dnsReports, List.append_assoc]
  · rw [if_neg hempty]
    cases dr with
    | true =>
      refine ⟨[], ?_, Or.inr (Or.inl ⟨rfl, rfl⟩)⟩
      simp [dnsReports, List.append_assoc]
    | false =>
      refine ⟨_, ?_, Or.inr (Or.inr ⟨rfl, rfl⟩)⟩
      simp [dnsReports, List.append_assoc]

/-- Branch analysis of `sync`: route reports, then one of the four
continuations (no changes, dry run, successful apply, failed apply). -/
theorem sync_cases (π : List String → List String) (env : Env) (m : Bool)
    (lr rr : List TunnelRoute) (dr : Bool) :
    ((compare_routes π lr rr).has_changes = false ∧
      sync π env m lr rr dr = routeReports (compare_routes π lr rr) ++
        Event.noRouteChanges :: sync_dns_records π env m lr dr) ∨
    ((compare_routes π lr rr).has_changes = true ∧ dr = true ∧
      sync π env m lr rr dr = routeReports (compare_routes π lr rr) ++
        Event.dryRunNotice :: sync_dns_records π env m lr dr) ∨
    ((compare_routes π lr rr).has_changes = true ∧ dr = false ∧
      env.updateConfigOutcome = Except.ok () ∧
      sync π env m lr rr dr = routeReports (compare_routes π lr rr) ++
        Event.mutUpdateTunnelConfig (build_cloudflare_config lr) ::
          sync_dns_records π env m lr dr) ∨
    ((compare_routes π lr rr).has_changes = true ∧ dr = false ∧
      env.updateConfigOutcome = Except.error () ∧
      sync π env m lr rr dr = routeReports (compare_routes π lr rr) ++
        [Event.mutUpdateTunnelConfig (build_cloudflare_config lr),
         Event.routeApplyError, Event.exitError]) := by
  cases hch : (compare_routes π lr rr).has_changes with
  | false =>
    left
    exact ⟨rfl, by unfold sync; simp [hch, routeReports]⟩
  | true =>
    cases dr with
    | true =>
      right; left
      exact ⟨rfl, rfl, by unfold sync; simp [hch, routeReports]⟩
    | false =>
      cases hout : env.updateConfigOutcome with
      | ok u =>
        cases u
        right; right; left
        exact ⟨rfl, rfl, rfl, by unfold sync; simp [hch, hout, routeReports]⟩
      | error u =>
        cases u
        right; right; right
        exact ⟨rfl, rfl, rfl, by unfold sync; simp [hch, hout, routeReports]⟩

/-- Events that are mutating DNS API calls. -/
def Event.isDnsMutation : Event → Bool
  | Event.mutCreateDns _ => true
  | Event.mutUpdateDns _ _ => true
  | Event.mutDeleteDns _ _ => true
  | _ => false

theorem report_not_mut (e : Event) (h : e.isReport = true) :
    e.isMutation = false := by
  cases e <;> first | rfl | exact absurd h (by simp [Event.isReport])

theorem report_not_dnsmut (e : Event) (h : e.isReport = true) :
    e.isDnsMutation = false := by
  cases e <;> first | rfl | exact absurd h (by simp [Event.isReport])

theorem mem_trace_iff_mem_filter (e : Event) (he : e.isReport = true)
    (tr : List Event) : e ∈ tr ↔ e ∈ tr.filter Event.isReport := by
  rw [List.mem_filter]
  exact ⟨fun h => ⟨h, he⟩, fun h => h.1⟩

theorem dns_buckets_env_congr (π : List String → List String)
    (env1 env2 : Env) (hdom : env1.tunnel_domain = env2.tunnel_domain)
    (ex : List (String × DNSRecord)) (routes : List TunnelRoute) :
    dns_buckets π env1 ex routes = dns_buckets π env2 ex routes := by
  unfold dns_buckets
  rw [hdom]

theorem synthRecord_env_congr (env1 env2 : Env)
    (hdom : env1.tunnel_domain = env2.tunnel_domain) (h : String) :
    synthRecord env1 h = synthRecord env2 h := by
  unfold synthRecord
  rw [hdom]

theorem applyDnsCreates_congr (env1 env2 : Env)
    (hdom : env1.tunnel_domain = env2.tunnel_domain)
    (hc : env1.createDnsOutcome = env2.createDnsOutcome) (l : List String) :
    applyDnsCreates env1 l = applyDnsCreates env2 l := by
  induction l with
  | nil => rfl
  | cons h rest ih =>
    unfold applyDnsCreates
    rw [hc, ih, synthRecord_env_congr env1 env2 hdom]

theorem applyDnsUpdates_congr (env1 env2 : Env)
    (hdom : env1.tunnel_domain = env2.tunnel_domain)
    (hu : env1.updateDnsOutcome = env2.updateDnsOutcome)
    (ex : List (String × DNSRecord)) (l : List String) :
    applyDnsUpdates env1 ex l = applyDnsUpdates env2 ex l := by
  induction l with
  | nil => rfl
  | cons h rest ih =>
    unfold applyDnsUpdates
    rw [hu, ih, synthRecord_env_congr env1 env2 hdom]

theorem applyDnsDeletes_congr (env1 env2 : Env)
    (hd : env1.deleteDnsOutcome = env2.deleteDnsOutcome)
    (ex : List (String × DNSRecord)) (l : List String) :
    applyDnsDeletes env1 ex l = applyDnsDeletes env2 ex l := by
  induction l with
  | nil => rfl
  | cons h rest ih =>
    unfold applyDnsDeletes
    rw [hd, ih]

theorem applyDnsChanges_congr (env1 env2 : Env)
    (hdom : env1.tunnel_domain = env2.tunnel_domain)
    (hc : env1.createDnsOutcome = env2.createDnsOutcome)
    (hu : env1.updateDnsOutcome = env2.updateDnsOutcome)
    (hd : env1.deleteDnsOutcome = env2.deleteDnsOutcome)
    (ex : List (String × DNSRecord)) (c u d : List String) :
    applyDnsChanges env1 ex c u d = applyDnsChanges env2 ex c u d := by
  unfold applyDnsChanges
  rw [applyDnsCreates_congr env1 env2 hdom hc,
    applyDnsUpdates_congr env1 env2 hdom hu,
    applyDnsDeletes_congr env1 env2 hd]

theorem sync_dns_records_env_congr (π : List String → List String)
    (env1 env2 : Env) (hdom : env1.tunnel_domain = env2.tunnel_domain)
    (hget : get_existing_dns_records env1.dnsFetch =
      get_existing_dns_records env2.dnsFetch)
    (hc : env1.createDnsOutcome = env2.createDnsOutcome)
    (hu : env1.updateDnsOutcome = env2.updateDnsOutcome)
    (hd : env1.deleteDnsOutcome = env2.deleteDnsOutcome)
    (m : Bool) (routes : List TunnelRoute) (dr : Bool) :
    sync_dns_records π env1 m routes dr =
      sync_dns_records π env2 m routes dr := by
  unfold sync_dns_records
  rw [hget]
  dsimp only
  rw [dns_buckets_env_congr π env1 env2 hdom,
    applyDnsChanges_congr env1 env2 hdom hc hu hd]

theorem sync_dns_filter_report (π : List String → List String) (env : Env)
    (routes : List TunnelRoute) (dr : Bool) :
    (sync_dns_records π env true routes dr).filter Event.isReport =
      dnsReports
        (dns_buckets π env (get_existing_dns_records env.dnsFetch).1 routes).1
        (dns_buckets π env (get_existing_dns_records env.dnsFetch).1
          routes).2.1
        (dns_buckets π env (get_existing_dns_records env.dnsFetch).1
          routes).2.2 := by
  rcases sync_dns_records_cases π env routes dr with ⟨tail, heq, htail⟩
  rw [heq, List.filter_append, List.filter_append,
    List.filter_cons_of_neg (by simp [Event.isReport])]
  have hwarn : ((if (get_existing_dns_records env.dnsFetch).2 then
      [Event.warnDnsFetchFailed] else []).filter Event.isReport) = [] := by
    cases hw : (get_existing_dns_records env.dnsFetch).2 <;>
      simp [Event.isReport]
  have hrep := List.filter_eq_self.2 (dnsReports_report
    (dns_buckets π env (get_existing_dns_records env.dnsFetch).1 routes).1
    (dns_buckets π env (get_existing_dns_records env.dnsFetch).1 routes).2.1
    (dns_buckets π env (get_existing_dns_records env.dnsFetch).1 routes).2.2)
  have htl : tail.filter Event.isReport = [] := by
    rcases htail with ⟨_, rfl⟩ | ⟨_, rfl⟩ | ⟨_, rfl⟩
    · simp [Event.isReport]
    · rfl
    · refine List.filter_eq_nil_iff.2 (fun e he => ?_)
      rw [applyDnsChanges_not_report _ _ _ _ _ e he]
      simp
  rw [hwarn, hrep, htl]
  simp

theorem sync_filter_report (π : List String → List String) (env : Env)
    (m : Bool) (lr rr : List TunnelRoute) (dr : Bool)
    (hok : (compare_routes π lr rr).has_changes = true → dr = false →
      env.updateConfigOutcome = Except.ok ()) :
    (sync π env m lr rr dr).filter Event.isReport =
      routeReports (compare_routes π lr rr) ++
        (sync_dns_records π env m lr dr).filter Event.isReport := by
  have hrep := List.filter_eq_self.2 (routeReports_report (compare_routes π lr rr))
  rcases sync_cases π env m lr rr dr with ⟨hch, heq⟩ | ⟨hch, hdr, heq⟩ |
    ⟨hch, hdr, hout, heq⟩ | ⟨hch, hdr, hout, heq⟩
  · rw [heq, List.filter_append, hrep,
      List.filter_cons_of_neg (by simp [Event.isReport])]
  · rw [heq, List.filter_append, hrep,
      List.filter_cons_of_neg (by simp [Event.isReport])]
  · rw [heq, List.filter_append, hrep,
      List.filter_cons_of_neg (by simp [Event.isReport])]
  · have h2 := hok hch hdr
    rw [hout] at h2
    exact Except.noConfusion h2

theorem sync_dns_dry_no_mut (π : List String → List String) (env : Env)
    (m : Bool) (routes : List TunnelRoute) :
    ∀ e ∈ sync_dns_records π env m routes true, e.isMutation = false := by
  intro e he
  cases m with
  | false =>
    rw [show sync_dns_records π env false routes true = [] from rfl] at he
    cases he
  | true =>
    rcases sync_dns_records_cases π env routes true with ⟨tail, heq, htail⟩
    rw [heq] at he
    rcases List.mem_cons.1 he with rfl | he
    · rfl
    rcases List.mem_append.1 he with he | he
    · rcases List.mem_append.1 he with he | he
      · by_cases hw : (get_existing_dns_records env.dnsFetch).2 = true
        · rw [if_pos hw] at he
          rcases List.mem_singleton.1 he with rfl
          rfl
        · rw [if_neg hw] at he
          cases he
      · exact report_not_mut e (dnsReports_report _ _ _ e he)
    · rcases htail with ⟨_, rfl⟩ | ⟨_, rfl⟩ | ⟨hfalse, _⟩
      · rcases List.mem_singleton.1 he with rfl
        rfl
      · cases he
      · exact Bool.noConfusion hfalse

theorem sync_dry_no_mut (π : List String → List String) (env : Env)
    (m : Bool) (lr rr : List TunnelRoute) :
    ∀ e ∈ sync π env m lr rr true, e.isMutation = false := by
  intro e he
  rcases sync_cases π env m lr rr true with ⟨hch, heq⟩ | ⟨hch, hdr, heq⟩ |
    ⟨hch, hdr, hout, heq⟩ | ⟨hch, hdr, hout, heq⟩
  · rw [heq] at he
    rcases List.mem_append.1 he with he | he
    · exact report_not_mut e (routeReports_report _ e he)
    · rcases List.mem_cons.1 he with rfl | he
      · rfl
      · exact sync_dns_dry_no_mut π env m lr e he
  · rw [heq] at he
    rcases List.mem_append.1 he with he | he
    · exact report_not_mut e (routeReports_report _ e he)
    · rcases List.mem_cons.1 he with rfl | he
      · rfl
      · exact sync_dns_dry_no_mut π env m lr e he
  · exact Bool.noConfusion hdr
  · exact Bool.noConfusion hdr

theorem mem_of_getLast? {α : Type} {l : List α} {a : α}
    (h : l.getLast? = some a) : a ∈ l := by
  induction l using List.reverseRecOn with
  | nil => cases h
  | append_singleton l x ih =>
    rw [List.getLast?_concat] at h
    injection h with h
    subst h
    exact List.mem_append.2 (Or.inr (List.mem_singleton.2 rfl))

theorem routeReports_forms (a : RouteActions) :
    ∀ e ∈ routeReports a,
      (∃ r ∈ a.create, e = Event.reportRouteCreate r) ∨
      (∃ r ∈ a.update, e = Event.reportRouteUpdate r) ∨
      (∃ r ∈ a.delete, e = Event.reportRouteDelete r) := by
  intro e he
  unfold routeReports at he
  rcases List.mem_append.1 he with he | he
  · rcases List.mem_append.1 he with he | he
    · rcases List.mem_map.1 he with ⟨r, hr, rfl⟩
      exact Or.inl ⟨r, hr, rfl⟩
    · rcases List.mem_map.1 he with ⟨r, hr, rfl⟩
      exact Or.inr (Or.inl ⟨r, hr, rfl⟩)
  · rcases List.mem_map.1 he with ⟨r, hr, rfl⟩
    exact Or.inr (Or.inr ⟨r, hr, rfl⟩)

theorem dnsReports_forms (c u d : List String) :
    ∀ e ∈ dnsReports c u d,
      (∃ h ∈ c, e = Event.reportDnsCreate h) ∨
      (∃ h ∈ u, e = Event.reportDnsUpdate h) ∨
      (∃ h ∈ d, e = Event.reportDnsDelete h) := by
  intro e he
  unfold dnsReports at he
  rcases List.mem_append.1 he with he | he
  · rcases List.mem_append.1 he with he | he
    · rcases List.mem_map.1 he with ⟨h, hh, rfl⟩
      exact Or.inl ⟨h, hh, rfl⟩
    · rcases List.mem_map.1 he with ⟨h, hh, rfl⟩
      exact Or.inr (Or.inl ⟨h, hh, rfl⟩)
  · rcases List.mem_map.1 he with ⟨h, hh, rfl⟩
    exact Or.inr (Or.inr ⟨h, hh, rfl⟩)

/-- The apply section is always ordered: a block of creates, then a block of
updates, then a block of deletes, then at most the error/exit pair. -/
theorem applyDnsChanges_order (env : Env) (ex : List (String × DNSRecord))
    (c u d : List String) :
    ∃ (Cp Up Dp T : List Event),
      applyDnsChanges env ex c u d = Cp ++ Up ++ Dp ++ T ∧
      (∀ e ∈ Cp, ∃ h ∈ c, e = Event.mutCreateDns (synthRecord env h)) ∧
      (∀ e ∈ Up, ∃ h ∈ u, ∃ exr i, pyLookup ex h = some exr ∧
        exr.id = some i ∧ i.isEmpty = false ∧
        e = Event.mutUpdateDns i (synthRecord env h)) ∧
      (∀ e ∈ Dp, ∃ h ∈ d, ∃ exr i, pyLookup ex h = some exr ∧
        exr.id = some i ∧ i.isEmpty = false ∧ e = Event.mutDeleteDns i h) ∧
      (∀ e ∈ T, e = Event.dnsApplyError ∨ e = Event.exitError) := by
  unfold applyDnsChanges
  cases hc2 : (applyDnsCreates env c).2 with
  | false =>
    refine ⟨(applyDnsCreates env c).1, [], [],
      [Event.dnsApplyError, Event.exitError], by simp [hc2],
      applyDnsCreates_events env c, by simp, by simp, ?_⟩
    intro e he
    rcases List.mem_cons.1 he with rfl | he
    · exact Or.inl rfl
    · rcases List.mem_singleton.1 he with rfl
      exact Or.inr rfl
  | true =>
    cases hu2 : (applyDnsUpdates env ex u).2 with
    | false =>
      refine ⟨(applyDnsCreates env c).1, (applyDnsUpdates env ex u).1, [],
        [Event.dnsApplyError, Event.exitError], by simp [hc2, hu2],
        applyDnsCreates_events env c, applyDnsUpdates_events env ex u,
        by simp, ?_⟩
      intro e he
      rcases List.mem_cons.1 he with rfl | he
      · exact Or.inl rfl
      · rcases List.mem_singleton.1 he with rfl
        exact Or.inr rfl
    | true =>
      cases hd2 : (applyDnsDeletes env ex d).2 with
      | false =>
        refine ⟨(applyDnsCreates env c).1, (applyDnsUpdates env ex u).1,
          (applyDnsDeletes env ex d).1,
          [Event.dnsApplyError, Event.exitError], by simp [hc2, hu2, hd2],
          applyDnsCreates_events env c, applyDnsUpdates_events env ex u,
          applyDnsDeletes_events env ex d, ?_⟩
        intro e he
        rcases List.mem_cons.1 he with rfl | he
        · exact Or.inl rfl
        · rcases List.mem_singleton.1 he with rfl
          exact Or.inr rfl
      | true =>
        exact ⟨(applyDnsCreates env c).1, (applyDnsUpdates env ex u).1,
          (applyDnsDeletes env ex d).1, [], by simp [hc2, hu2, hd2],
          applyDnsCreates_events env c, applyDnsUpdates_events env ex u,
          applyDnsDeletes_events env ex d, by simp⟩

theorem sync_dns_no_cfg_mut (π : List String → List String) (env : Env)
    (m : Bool) (routes : List TunnelRoute) (dr : Bool) (cfg : TunnelConfig) :
    Event.mutUpdateTunnelConfig cfg ∉ sync_dns_records π env m routes dr := by
  intro he
  cases m with
  | false =>
    rw [show sync_dns_records π env false routes dr = [] from rfl] at he
    cases he
  | true =>
    rcases sync_dns_records_cases π env routes dr with ⟨tail, heq, htail⟩
    rw [heq] at he
    rcases List.mem_cons.1 he with h | he
    · exact Event.noConfusion h
    rcases List.mem_append.1 he with he | he
    · rcases List.mem_append.1 he with he | he
      · by_cases hw : (get_existing_dns_records env.dnsFetch).2 = true
        · rw [if_pos hw] at he
          rcases List.mem_singleton.1 he with h
          exact Event.noConfusion h
        · rw [if_neg hw] at he
          cases he
      · have hr := dnsReports_report _ _ _ _ he
        simp [Event.isReport] at hr
    · rcases htail with ⟨_, rfl⟩ | ⟨_, rfl⟩ | ⟨_, rfl⟩
      · rcases List.mem_singleton.1 he with h
        exact Event.noConfusion h
      · cases he
      · rcases applyDnsChanges_events _ _ _ _ _ _ he with h | h | h | h | h
        · rcases h with ⟨_, _, h⟩; exact Event.noConfusion h
        · rcases h with ⟨_, _, _, _, _, _, _, h⟩; exact Event.noConfusion h
        · rcases h with ⟨_, _, _, _, _, _, _, h⟩; exact Event.noConfusion h
        · exact Event.noConfusion h
        · exact Event.noConfusion h

theorem mutCfg_mem_sync (π : List String → List String) (env : Env)
    (m : Bool) (lr rr : List TunnelRoute) (dr : Bool) (cfg : TunnelConfig)
    (he : Event.mutUpdateTunnelConfig cfg ∈ sync π env m lr rr dr) :
    (compare_routes π lr rr).has_changes = true ∧ dr = false ∧
      cfg = build_cloudflare_config lr := by
  have hnotrep : ∀ tr : List Event,
      Event.mutUpdateTunnelConfig cfg ∈ routeReports (compare_routes π lr rr) →
      False := by
    intro _ h
    have hr := routeReports_report _ _ h
    simp [Event.isReport] at hr
  rcases sync_cases π env m lr rr dr with ⟨hch, heq⟩ | ⟨hch, hdr, heq⟩ |
    ⟨hch, hdr, hout, heq⟩ | ⟨hch, hdr, hout, heq⟩
  · rw [heq] at he
    rcases List.mem_append.1 he with he | he
    · exact absurd he (fun h => hnotrep [] h)
    · rcases List.mem_cons.1 he with h | he
      · exact Event.noConfusion h
      · exact absurd he (sync_dns_no_cfg_mut π env m lr dr cfg)
  · rw [heq] at he
    rcases List.mem_append.1 he with he | he
    · exact absurd he (fun h => hnotrep [] h)
    · rcases List.mem_cons.1 he with h | he
      · exact Event.noConfusion h
      · exact absurd he (sync_dns_no_cfg_mut π env m lr dr cfg)
  · rw [heq] at he
    rcases List.mem_append.1 he with he | he
    · exact absurd he (fun h => hnotrep [] h)
    · rcases List.mem_cons.1 he with h | he
      · injection h with h
        exact ⟨hch, hdr, h⟩
      · exact absurd he (sync_dns_no_cfg_mut π env m lr dr cfg)
  · rw [heq] at he
    rcases List.mem_append.1 he with he | he
    · exact absurd he (fun h => hnotrep [] h)
    · rcases List.mem_cons.1 he with h | he
      · injection h with h
        exact ⟨hch, hdr, h⟩
      · rcases List.mem_cons.1 he with h | he
        · exact Event.noConfusion h
        · rcases List.mem_singleton.1 he with h
          exact Event.noConfusion h

/-- Inside `sync_dns_records`, every DNS mutation is preceded by the report
line that enumerated it. -/
theorem sync_dns_mut_reported (π : List String → List String) (env : Env)
    (m : Bool) (routes : List TunnelRoute) (dr : Bool) :
    (∀ rd, Event.mutCreateDns rd ∈ sync_dns_records π env m routes dr →
      [Event.reportDnsCreate rd.name, Event.mutCreateDns rd].Sublist
        (sync_dns_records π env m routes dr)) ∧
    (∀ i rd, Event.mutUpdateDns i rd ∈ sync_dns_records π env m routes dr →
      [Event.reportDnsUpdate rd.name, Event.mutUpdateDns i rd].Sublist
        (sync_dns_records π env m routes dr)) ∧
    (∀ i h, Event.mutDeleteDns i h ∈ sync_dns_records π env m routes dr →
      [Event.reportDnsDelete h, Event.mutDeleteDns i h].Sublist
        (sync_dns_records π env m routes dr)) := by
  cases m with
  | false =>
    have hnil : sync_dns_records π env false routes dr = [] := rfl
    refine ⟨?_, ?_, ?_⟩
    · intro rd hmem; rw [hnil] at hmem; cases hmem
    · intro i rd hmem; rw [hnil] at hmem; cases hmem
    · intro i h hmem; rw [hnil] at hmem; cases hmem
  | true =>
    rcases sync_dns_records_cases π env routes dr with ⟨tail, heq, htail⟩
    have hmut_tail : ∀ e : Event, e ∈ sync_dns_records π env true routes dr →
        e.isDnsMutation = true → e ∈ tail := by
      intro e he hdns
      rw [heq] at he
      rcases List.mem_cons.1 he with rfl | he
      · exact Bool.noConfusion hdns
      rcases List.mem_append.1 he with he | he
      · rcases List.mem_append.1 he with he | he
        · by_cases hw : (get_existing_dns_records env.dnsFetch).2 = true
          · rw [if_pos hw] at he
            rcases List.mem_singleton.1 he with rfl
            exact Bool.noConfusion hdns
          · rw [if_neg hw] at he
            cases he
        · rw [report_not_dnsmut e (dnsReports_report _ _ _ e he)] at hdns
          exact Bool.noConfusion hdns
      · exact he
    have hpair : ∀ (rep mu : Event),
        rep ∈ dnsReports
          (dns_buckets π env (get_existing_dns_records env.dnsFetch).1
            routes).1
          (dns_buckets π env (get_existing_dns_records env.dnsFetch).1
            routes).2.1
          (dns_buckets π env (get_existing_dns_records env.dnsFetch).1
            routes).2.2 →
        mu ∈ tail →
        [rep, mu].Sublist (sync_dns_records π env true routes dr) := by
      intro rep mu hrep hmu
      rw [heq]
      exact pair_sublist_append
        (List.mem_append.2 (Or.inr hrep)) hmu
    rcases htail with ⟨hemp, rfl⟩ | ⟨hdr, rfl⟩ | ⟨hdr, rfl⟩
    · refine ⟨?_, ?_, ?_⟩
      · intro rd hmem
        rcases List.mem_singleton.1
          (hmut_tail _ hmem rfl) with h
        exact Event.noConfusion h
      · intro i rd hmem
        rcases List.mem_singleton.1 (hmut_tail _ hmem rfl) with h
        exact Event.noConfusion h
      · intro i h hmem
        rcases List.mem_singleton.1 (hmut_tail _ hmem rfl) with h'
        exact Event.noConfusion h'
    · refine ⟨?_, ?_, ?_⟩
      · intro rd hmem; cases hmut_tail _ hmem rfl
      · intro i rd hmem; cases hmut_tail _ hmem rfl
      · intro i h hmem; cases hmut_tail _ hmem rfl
    · rcases applyDnsChanges_order env
        (get_existing_dns_records env.dnsFetch).1
        (dns_buckets π env (get_existing_dns_records env.dnsFetch).1 routes).1
        (dns_buckets π env (get_existing_dns_records env.dnsFetch).1
          routes).2.1
        (dns_buckets π env (get_existing_dns_records env.dnsFetch).1
          routes).2.2 with ⟨Cp, Up, Dp, T, happly, hCp, hUp, hDp, hT⟩
      refine ⟨?_, ?_, ?_⟩
      · intro rd hmem
        have htl := hmut_tail _ hmem rfl
        rw [happly] at htl
        have hin : Event.mutCreateDns rd ∈ Cp := by
          rcases List.mem_append.1 htl with h1 | h4
          · rcases List.mem_append.1 h1 with h2 | h3
            · rcases List.mem_append.1 h2 with h | h
              · exact h
              · rcases hUp _ h with ⟨_, _, _, _, _, _, _, habs⟩
                exact Event.noConfusion habs
            · rcases hDp _ h3 with ⟨_, _, _, _, _, _, _, habs⟩
              exact Event.noConfusion habs
          · rcases hT _ h4 with habs | habs <;> exact Event.noConfusion habs
        rcases hCp _ hin with ⟨h, hh, he⟩
        injection he with he
        subst he
        refine hpair _ _ ?_ (hmut_tail _ hmem rfl)
        unfold dnsReports
        exact List.mem_append.2 (Or.inl (List.mem_append.2 (Or.inl
          (List.mem_map.2 ⟨h, hh, rfl⟩))))
      · intro i rd hmem
        have htl := hmut_tail _ hmem rfl
        rw [happly] at htl
        have hin : Event.mutUpdateDns i rd ∈ Up := by
          rcases List.mem_append.1 htl with h1 | h4
          · rcases List.mem_append.1 h1 with h2 | h3
            · rcases List.mem_append.1 h2 with h | h
              · rcases hCp _ h with ⟨_, _, habs⟩
                exact Event.noConfusion habs
              · exact h
            · rcases hDp _ h3 with ⟨_, _, _, _, _, _, _, habs⟩
              exact Event.noConfusion habs
          · rcases hT _ h4 with habs | habs <;> exact Event.noConfusion habs
        rcases hUp _ hin with ⟨h, hh, exr, i', hlook, hid, hne, he⟩
        injection he with he1 he2
        subst he1
        subst he2
        refine hpair _ _ ?_ (hmut_tail _ hmem rfl)
        unfold dnsReports
        exact List.mem_append.2 (Or.inl (List.mem_append.2 (Or.inr
          (List.mem_map.2 ⟨h, hh, rfl⟩))))
      · intro i h hmem
        have htl := hmut_tail _ hmem rfl
        rw [happly] at htl
        have hin : Event.mutDeleteDns i h ∈ Dp := by
          rcases List.mem_append.1 htl with h1 | h4
          · rcases List.mem_append.1 h1 with h2 | h3
            · rcases List.mem_append.1 h2 with hx | hx
              · rcases hCp _ hx with ⟨_, _, habs⟩
                exact Event.noConfusion habs
              · rcases hUp _ hx with ⟨_, _, _, _, _, _, _, habs⟩
                exact Event.noConfusion habs
            · exact h3
          · rcases hT _ h4 with habs | habs <;> exact Event.noConfusion habs
        rcases hDp _ hin with ⟨h', hh', exr, i', hlook, hid, hne, he⟩
        injection he with he1 he2
        subst he1
        subst he2
        refine hpair _ _ ?_ (hmut_tail _ hmem rfl)
        unfold dnsReports
        exact List.mem_append.2 (Or.inr (List.mem_map.2 ⟨h, hh', rfl⟩))

/-! ### Claim theorems: the DNS reconciler -/

/-- A concrete environment for witnesses: the DNS fetch returns one managed
record pointing at a stale target, and every mutating call succeeds. -/
def sampleEnv : Env :=
  { tunnel_id := "tid"
    dnsFetch := Except.ok
      [{ id := some "rid1", type := "CNAME", name := "a.example.com",
         content := "old.cfargotunnel.com", proxied := true, ttl := 1 }]
    updateConfigOutcome := Except.ok ()
    createDnsOutcome := fun _ => Except.ok ()
    updateDnsOutcome := fun _ => Except.ok ()
    deleteDnsOutcome := fun _ => Except.ok () }

/-- C3: the DNS reconciliation considers as managed exactly the actual
records whose type is "CNAME" and whose content ends with
".cfargotunnel.com" (the last such record wins per name); against that
managed dict it computes create = desired names with no managed record,
update = names on both sides whose managed record's content differs from
the canonical tunnel target, delete = managed names not desired; records
that are not managed back no bucket, and the entire run is unchanged if
they are removed from the fetch result. -/
theorem sync_dns_buckets_correct (π : List String → List String)
    (hπ : ∀ l, (π l).Perm l) (env : Env) (records : List DNSRecord)
    (routes : List TunnelRoute) (m dry : Bool)
    (hfetch : env.dnsFetch = Except.ok records) :
    (∀ n, pyLookup (get_existing_dns_records env.dnsFetch).1 n =
      (records.filter (fun rd => managedRecord rd && rd.name == n)).getLast?) ∧
    (∀ n rd, pyLookup (get_existing_dns_records env.dnsFetch).1 n = some rd →
      rd ∈ records ∧ managedRecord rd = true ∧ rd.name = n) ∧
    (∀ h, h ∈ (dns_buckets π env (get_existing_dns_records env.dnsFetch).1
        routes).1 ↔
      h ∈ routes.map TunnelRoute.hostname ∧
        pyLookup (get_existing_dns_records env.dnsFetch).1 h = none) ∧
    (∀ h, h ∈ (dns_buckets π env (get_existing_dns_records env.dnsFetch).1
        routes).2.1 ↔
      h ∈ routes.map TunnelRoute.hostname ∧
        ∃ rd, pyLookup (get_existing_dns_records env.dnsFetch).1 h = some rd ∧
          rd.content ≠ env.tunnel_domain) ∧
    (∀ h, h ∈ (dns_buckets π env (get_existing_dns_records env.dnsFetch).1
        routes).2.2 ↔
      (∃ rd, pyLookup (get_existing_dns_records env.dnsFetch).1 h = some rd) ∧
        h ∉ routes.map TunnelRoute.hostname) ∧
    (get_existing_dns_records env.dnsFetch =
      get_existing_dns_records (Except.ok (records.filter managedRecord))) ∧
    (sync_dns_records π env m routes dry =
      sync_dns_records π
        { env with dnsFetch := Except.ok (records.filter managedRecord) }
        m routes dry) := by
  refine ⟨?_, ?_, mem_dns_create_iff π hπ env _ routes,
    mem_dns_update_iff π hπ env _ routes,
    mem_dns_delete_iff π hπ env _ routes, ?_, ?_⟩
  · intro n
    rw [hfetch]
    exact existing_lookup records n
  · intro n rd hlook
    rw [hfetch, existing_lookup records n] at hlook
    have hmem := mem_of_getLast? hlook
    rcases List.mem_filter.1 hmem with ⟨hrec, hpred⟩
    rw [Bool.and_eq_true] at hpred
    rcases hpred with ⟨hman, hname⟩
    exact ⟨hrec, hman, by simpa using hname⟩
  · rw [hfetch]
    exact existing_filter_invariant records
  · refine sync_dns_records_env_congr π env
      { env with dnsFetch := Except.ok (records.filter managedRecord) }
      rfl ?_ rfl rfl rfl m routes dry
    rw [hfetch]
    exact existing_filter_invariant records

/-- Witness for C3 at a concrete fetch result: the managed-record lookup is
the last managed record with that name. -/
theorem sync_dns_buckets_correct_witness :
    pyLookup (get_existing_dns_records sampleEnv.dnsFetch).1 "a.example.com" =
      (([⟨some "rid1", "CNAME", "a.example.com", "old.cfargotunnel.com",
          true, 1⟩] : List DNSRecord).filter
        (fun rd => managedRecord rd && rd.name == "a.example.com")).getLast? :=
  (sync_dns_buckets_correct id (fun l => List.Perm.refl l) sampleEnv
    [⟨some "rid1", "CNAME", "a.example.com", "old.cfargotunnel.com", true, 1⟩]
    [⟨"a.example.com", "svc", none⟩] true false rfl).1 "a.example.com"

/-- C6: if the DNS fetch fails, the run does not crash: it proceeds with an
empty managed set and reports a warning, so every desired hostname lands in
the create bucket and the update and delete buckets are empty; the trace
reports exactly the desired hostnames as creates and no updates or
deletes. -/
theorem dns_fetch_failure_degrades (π : List String → List String)
    (hπ : ∀ l, (π l).Perm l) (env : Env) (routes : List TunnelRoute)
    (dry : Bool) (hfail : env.dnsFetch = Except.error ()) :
    Event.warnDnsFetchFailed ∈ sync_dns_records π env true routes dry ∧
    (dns_buckets π env (get_existing_dns_records env.dnsFetch).1
      routes).1.Perm (routes.map TunnelRoute.hostname).dedup ∧
    (dns_buckets π env (get_existing_dns_records env.dnsFetch).1
      routes).2.1 = [] ∧
    (dns_buckets π env (get_existing_dns_records env.dnsFetch).1
      routes).2.2 = [] ∧
    (∀ h, Event.reportDnsCreate h ∈ sync_dns_records π env true routes dry ↔
      h ∈ routes.map TunnelRoute.hostname) ∧
    (∀ h, Event.reportDnsUpdate h ∉ sync_dns_records π env true routes dry) ∧
    (∀ h, Event.reportDnsDelete h ∉ sync_dns_records π env true routes dry) := by
  have hex : get_existing_dns_records env.dnsFetch = ([], true) := by
    rw [hfail]
    rfl
  have hlooknone : ∀ h,
      pyLookup (get_existing_dns_records env.dnsFetch).1 h = none := by
    intro h
    rw [hex]
    rfl
  have hU : (dns_buckets π env (get_existing_dns_records env.dnsFetch).1
      routes).2.1 = [] := by
    refine List.eq_nil_iff_forall_not_mem.2 (fun h hmem => ?_)
    rcases (mem_dns_update_iff π hπ env _ routes h).1 hmem with ⟨_, rd, hrd, _⟩
    rw [hlooknone h] at hrd
    cases hrd
  have hD : (dns_buckets π env (get_existing_dns_records env.dnsFetch).1
      routes).2.2 = [] := by
    refine List.eq_nil_iff_forall_not_mem.2 (fun h hmem => ?_)
    rcases (mem_dns_delete_iff π hπ env _ routes h).1 hmem with ⟨⟨rd, hrd⟩, _⟩
    rw [hlooknone h] at hrd
    cases hrd
  have hC : (dns_buckets π env (get_existing_dns_records env.dnsFetch).1
      routes).1.Perm (routes.map TunnelRoute.hostname).dedup := by
    have hfil : ((routes.map TunnelRoute.hostname).dedup).filter
        (fun h =>
          !((([] : List (String × DNSRecord))).map Prod.fst).contains h) =
        (routes.map TunnelRoute.hostname).dedup :=
      List.filter_eq_self.2 (fun a _ => rfl)
    have hc1 : (dns_buckets π env (get_existing_dns_records env.dnsFetch).1
        routes).1 = π ((routes.map TunnelRoute.hostname).dedup) := by
      rw [hex]
      exact congrArg π hfil
    rw [hc1]
    exact hπ _
  refine ⟨?_, hC, hU, hD, ?_, ?_, ?_⟩
  · rcases sync_dns_records_cases π env routes dry with ⟨tail, heq, _⟩
    rw [heq, hex]
    simp
  · intro h
    rw [mem_trace_iff_mem_filter (Event.reportDnsCreate h) rfl,
      sync_dns_filter_report]
    constructor
    · intro hmem
      rcases dnsReports_forms _ _ _ _ hmem with ⟨h', hh', he⟩ |
        ⟨h', hh', he⟩ | ⟨h', hh', he⟩
      · injection he with he
        subst he
        exact ((mem_dns_create_iff π hπ env _ routes h).1 hh').1
      · exact Event.noConfusion he
      · exact Event.noConfusion he
    · intro hmem
      have hcreate := (mem_dns_create_iff π hπ env _ routes h).2
        ⟨hmem, hlooknone h⟩
      unfold dnsReports
      exact List.mem_append.2 (Or.inl (List.mem_append.2 (Or.inl
        (List.mem_map.2 ⟨h, hcreate, rfl⟩))))
  · intro h hmem
    rw [mem_trace_iff_mem_filter (Event.reportDnsUpdate h) rfl,
      sync_dns_filter_report] at hmem
    rcases dnsReports_forms _ _ _ _ hmem with ⟨h', hh', he⟩ |
      ⟨h', hh', he⟩ | ⟨h', hh', he⟩
    · exact Event.noConfusion he
    · rw [hU] at hh'
      cases hh'
    · exact Event.noConfusion he
  · intro h hmem
    rw [mem_trace_iff_mem_filter (Event.reportDnsDelete h) rfl,
      sync_dns_filter_report] at hmem
    rcases dnsReports_forms _ _ _ _ hmem with ⟨h', hh', he⟩ |
      ⟨h', hh', he⟩ | ⟨h', hh', he⟩
    · exact Event.noConfusion he
    · exact Event.noConfusion he
    · rw [hD] at hh'
      cases hh'

/-- Witness for C6: with a failing fetch, the warning is reported. -/
theorem dns_fetch_failure_degrades_witness :
    Event.warnDnsFetchFailed ∈
      sync_dns_records id { sampleEnv with dnsFetch := Except.error () } true
        [⟨"a.example.com", "svc", none⟩] false :=
  (dns_fetch_failure_degrades id (fun l => List.Perm.refl l)
    { sampleEnv with dnsFetch := Except.error () }
    [⟨"a.example.com", "svc", none⟩] false rfl).1

/-! ### Claim theorems: the orchestrator -/

theorem sync_dns_dnsmut_mem (π : List String → List String) (env : Env)
    (routes : List TunnelRoute) (dr : Bool) (e : Event)
    (hdns : e.isDnsMutation = true)
    (he : e ∈ sync_dns_records π env true routes dr) :
    dr = false ∧ e ∈ applyDnsChanges env
      (get_existing_dns_records env.dnsFetch).1
      (dns_buckets π env (get_existing_dns_records env.dnsFetch).1 routes).1
      (dns_buckets π env (get_existing_dns_records env.dnsFetch).1 routes).2.1
      (dns_buckets π env (get_existing_dns_records env.dnsFetch).1
        routes).2.2 := by
  rcases sync_dns_records_cases π env routes dr with ⟨tail, heq, htail⟩
  rw [heq] at he
  rcases List.mem_cons.1 he with rfl | he
  · exact Bool.noConfusion hdns
  rcases List.mem_append.1 he with he | he
  · rcases List.mem_append.1 he with he | he
    · by_cases hw : (get_existing_dns_records env.dnsFetch).2 = true
      · rw [if_pos hw] at he
        rcases List.mem_singleton.1 he with rfl
        exact Bool.noConfusion hdns
      · rw [if_neg hw] at he
        cases he
    · rw [report_not_dnsmut e (dnsReports_report _ _ _ e he)] at hdns
      exact Bool.noConfusion hdns
  · rcases htail with ⟨_, rfl⟩ | ⟨_, rfl⟩ | ⟨hdr, rfl⟩
    · rcases List.mem_singleton.1 he with rfl
      exact Bool.noConfusion hdns
    · cases he
    · exact ⟨hdr, he⟩

/-- C8: whenever the route action set is non-empty and the run is real, the
apply step pushes the full desired route list as one whole replacement
document — `build_cloudflare_config` of the complete desired list, and
nothing else — whose ingress is every desired rule (each hostname-bearing)
followed by the fixed catch-all rule `{"service": "http_status:404"}` as
the last element. -/
theorem apply_pushes_full_config (π : List String → List String) (env : Env)
    (m : Bool) (lr rr : List TunnelRoute)
    (hch : (compare_routes π lr rr).has_changes = true) :
    Event.mutUpdateTunnelConfig (build_cloudflare_config lr) ∈
      sync π env m lr rr false ∧
    (∀ cfg, Event.mutUpdateTunnelConfig cfg ∈ sync π env m lr rr false →
      cfg = build_cloudflare_config lr) ∧
    (build_cloudflare_config lr).ingress =
      lr.map TunnelRoute.to_dict ++ [catchAllRule] ∧
    (build_cloudflare_config lr).ingress.getLast? = some catchAllRule ∧
    catchAllRule.hostname = none ∧
    catchAllRule.service = "http_status:404" ∧
    (∀ rule ∈ lr.map TunnelRoute.to_dict, rule.hostname.isSome = true) := by
  refine ⟨?_, ?_, rfl, ?_, rfl, rfl, ?_⟩
  · rcases sync_cases π env m lr rr false with ⟨hch', _⟩ | ⟨_, hdr, _⟩ |
      ⟨_, _, _, heq⟩ | ⟨_, _, _, heq⟩
    · rw [hch'] at hch
      exact Bool.noConfusion hch
    · exact Bool.noConfusion hdr
    · rw [heq]
      exact List.mem_append.2 (Or.inr (List.mem_cons_self _ _))
    · rw [heq]
      exact List.mem_append.2 (Or.inr (List.mem_cons_self _ _))
  · intro cfg he
    exact (mutCfg_mem_sync π env m lr rr false cfg he).2.2
  · show (lr.map TunnelRoute.to_dict ++ [catchAllRule]).getLast? =
      some catchAllRule
    exact List.getLast?_concat _
  · intro rule hrule
    rcases List.mem_map.1 hrule with ⟨r, _, rfl⟩
    rfl

/-- Witness for C8: with one desired route and empty remote state, the full
rebuilt configuration is pushed. -/
theorem apply_pushes_full_config_witness :
    Event.mutUpdateTunnelConfig
      (build_cloudflare_config [⟨"a.example.com", "svc", none⟩]) ∈
      sync id sampleEnv true [⟨"a.example.com", "svc", none⟩] [] false :=
  (apply_pushes_full_config id sampleEnv true
    [⟨"a.example.com", "svc", none⟩] [] (by decide)).1

/-- C10: during DNS application an update/delete hostname whose managed
record carries no id is silently skipped (every update/delete call that is
made carries the id of the looked-up record, and none is made for an
id-less record); when all API calls succeed the skips raise no error and
every id-bearing hostname of the update and delete buckets is still
processed; every record created or updated is synthesized as a CNAME for
the hostname pointing at the tunnel domain with proxied=true and ttl=1. -/
theorem dns_missing_id_skipped (π : List String → List String) (env : Env)
    (routes : List TunnelRoute)
    (hcok : ∀ h, env.createDnsOutcome h = Except.ok ())
    (huok : ∀ h, env.updateDnsOutcome h = Except.ok ())
    (hdok : ∀ h, env.deleteDnsOutcome h = Except.ok ()) :
    (∀ i rd, Event.mutUpdateDns i rd ∈
        sync_dns_records π env true routes false →
      ∃ h exr, rd = synthRecord env h ∧
        pyLookup (get_existing_dns_records env.dnsFetch).1 h = some exr ∧
        exr.id = some i ∧ i.isEmpty = false) ∧
    (∀ i h, Event.mutDeleteDns i h ∈
        sync_dns_records π env true routes false →
      ∃ exr, pyLookup (get_existing_dns_records env.dnsFetch).1 h = some exr ∧
        exr.id = some i ∧ i.isEmpty = false) ∧
    (∀ h exr,
      pyLookup (get_existing_dns_records env.dnsFetch).1 h = some exr →
      exr.id = none →
      (∀ i rd, Event.mutUpdateDns i rd ∈
          sync_dns_records π env true routes false → rd.name ≠ h) ∧
      (∀ i, Event.mutDeleteDns i h ∉
        sync_dns_records π env true routes false)) ∧
    Event.dnsApplyError ∉ sync_dns_records π env true routes false ∧
    Event.exitError ∉ sync_dns_records π env true routes false ∧
    (∀ h ∈ (dns_buckets π env (get_existing_dns_records env.dnsFetch).1
        routes).2.1,
      ∀ exr i,
        pyLookup (get_existing_dns_records env.dnsFetch).1 h = some exr →
        exr.id = some i → i.isEmpty = false →
        Event.mutUpdateDns i (synthRecord env h) ∈
          sync_dns_records π env true routes false) ∧
    (∀ h ∈ (dns_buckets π env (get_existing_dns_records env.dnsFetch).1
        routes).2.2,
      ∀ exr i,
        pyLookup (get_existing_dns_records env.dnsFetch).1 h = some exr →
        exr.id = some i → i.isEmpty = false →
        Event.mutDeleteDns i h ∈ sync_dns_records π env true routes false) ∧
    (∀ rd, Event.mutCreateDns rd ∈ sync_dns_records π env true routes false →
      rd = synthRecord env rd.name) ∧
    (∀ i rd, Event.mutUpdateDns i rd ∈
        sync_dns_records π env true routes false →
      rd = synthRecord env rd.name) ∧
    (∀ h, synthRecord env h =
      { id := none, type := "CNAME", name := h,
        content := env.tunnel_domain, proxied := true, ttl := 1 }) := by
  have hupd : ∀ i rd, Event.mutUpdateDns i rd ∈
      sync_dns_records π env true routes false →
      ∃ h, h ∈ (dns_buckets π env
          (get_existing_dns_records env.dnsFetch).1 routes).2.1 ∧
        ∃ exr, rd = synthRecord env h ∧
        pyLookup (get_existing_dns_records env.dnsFetch).1 h = some exr ∧
        exr.id = some i ∧ i.isEmpty = false := by
    intro i rd he
    rcases sync_dns_dnsmut_mem π env routes false
      (Event.mutUpdateDns i rd) rfl he with ⟨_, hap⟩
    rcases applyDnsChanges_events _ _ _ _ _ _ hap with h | h | h | h | h
    · rcases h with ⟨_, _, habs⟩
      exact Event.noConfusion habs
    · rcases h with ⟨h, hh, exr, i', hlook, hid, hne, heq⟩
      injection heq with he1 he2
      subst he1
      subst he2
      exact ⟨h, hh, exr, rfl, hlook, hid, hne⟩
    · rcases h with ⟨_, _, _, _, _, _, _, habs⟩
      exact Event.noConfusion habs
    · exact Event.noConfusion h
    · exact Event.noConfusion h
  have hdel : ∀ i h, Event.mutDeleteDns i h ∈
      sync_dns_records π env true routes false →
      h ∈ (dns_buckets π env
        (get_existing_dns_records env.dnsFetch).1 routes).2.2 ∧
      ∃ exr, pyLookup (get_existing_dns_records env.dnsFetch).1 h = some exr ∧
        exr.id = some i ∧ i.isEmpty = false := by
    intro i h he
    rcases sync_dns_dnsmut_mem π env routes false
      (Event.mutDeleteDns i h) rfl he with ⟨_, hap⟩
    rcases applyDnsChanges_events _ _ _ _ _ _ hap with hf | hf | hf | hf | hf
    · rcases hf with ⟨_, _, habs⟩
      exact Event.noConfusion habs
    · rcases hf with ⟨_, _, _, _, _, _, _, habs⟩
      exact Event.noConfusion habs
    · rcases hf with ⟨h', hh', exr, i', hlook, hid, hne, heq⟩
      injection heq with he1 he2
      subst he1
      subst he2
      exact ⟨hh', exr, hlook, hid, hne⟩
    · exact Event.noConfusion hf
    · exact Event.noConfusion hf
  have htail : ∀ e : Event, e ∈ sync_dns_records π env true routes false →
      e = Event.dnsApplyError ∨ e = Event.exitError → False := by
    intro e he hf
    have hdns : e.isDnsMutation = false := by
      rcases hf with rfl | rfl <;> rfl
    rcases sync_dns_records_cases π env routes false with ⟨tail, heq, htail⟩
    rw [heq] at he
    rcases List.mem_cons.1 he with rfl | he
    · rcases hf with hf | hf <;> exact Event.noConfusion hf
    rcases List.mem_append.1 he with he | he
    · rcases List.mem_append.1 he with he | he
      · by_cases hw : (get_existing_dns_records env.dnsFetch).2 = true
        · rw [if_pos hw] at he
          rcases List.mem_singleton.1 he with rfl
          rcases hf with hf | hf <;> exact Event.noConfusion hf
        · rw [if_neg hw] at he
          cases he
      · have hr := dnsReports_report _ _ _ e he
        rcases hf with rfl | rfl <;> exact Bool.noConfusion hr
    · rcases htail with ⟨_, rfl⟩ | ⟨_, rfl⟩ | ⟨_, rfl⟩
      · rcases List.mem_singleton.1 he with rfl
        rcases hf with hf | hf <;> exact Event.noConfusion hf
      · cases he
      · rw [applyDnsChanges_ok env _ _ _ _ (fun h _ => hcok h)
          (fun h _ => huok h) (fun h _ => hdok h)] at he
        rcases List.mem_append.1 he with he | he
        · rcases List.mem_append.1 he with he | he
          · rcases applyDnsCreates_events env _ e he with ⟨_, _, habs⟩
            rcases hf with rfl | rfl <;> exact Event.noConfusion habs
          · rcases applyDnsUpdates_events env _ _ e he with
              ⟨_, _, _, _, _, _, _, habs⟩
            rcases hf with rfl | rfl <;> exact Event.noConfusion habs
        · rcases applyDnsDeletes_events env _ _ e he with
            ⟨_, _, _, _, _, _, _, habs⟩
          rcases hf with rfl | rfl <;> exact Event.noConfusion habs
  have hproc : ∀ e : Event,
      (e ∈ (applyDnsUpdates env
          (get_existing_dns_records env.dnsFetch).1
          (dns_buckets π env (get_existing_dns_records env.dnsFetch).1
            routes).2.1).1 ∨
        e ∈ (applyDnsDeletes env
          (get_existing_dns_records env.dnsFetch).1
          (dns_buckets π env (get_existing_dns_records env.dnsFetch).1
            routes).2.2).1) →
      (¬((dns_buckets π env (get_existing_dns_records env.dnsFetch).1
          routes).1.isEmpty &&
        (dns_buckets π env (get_existing_dns_records env.dnsFetch).1
          routes).2.1.isEmpty &&
        (dns_buckets π env (get_existing_dns_records env.dnsFetch).1
          routes).2.2.isEmpty) = true) →
      e ∈ sync_dns_records π env true routes false := by
    intro e hin hne
    rcases sync_dns_records_cases π env routes false with ⟨tail, heq, htail⟩
    rcases htail with ⟨hemp, rfl⟩ | ⟨hdr, _⟩ | ⟨_, rfl⟩
    · exact absurd hemp hne
    · exact Bool.noConfusion hdr
    · rw [heq]
      refine List.mem_append.2 (Or.inr ?_)
      rw [applyDnsChanges_ok env _ _ _ _ (fun h _ => hcok h)
        (fun h _ => huok h) (fun h _ => hdok h)]
      rcases hin with hin | hin
      · exact List.mem_append.2 (Or.inl (List.mem_append.2 (Or.inr hin)))
      · exact List.mem_append.2 (Or.inr hin)
  refine ⟨?_, ?_, ?_, ?_, ?_, ?_, ?_, ?_, ?_, fun h => rfl⟩
  · intro i rd he
    rcases hupd i rd he with ⟨h, _, exr, h1, h2, h3, h4⟩
    exact ⟨h, exr, h1, h2, h3, h4⟩
  · intro i h he
    exact (hdel i h he).2
  · intro h exr hlook hid
    constructor
    · intro i rd he hname
      rcases hupd i rd he with ⟨h', _, exr', h1, h2, h3, _⟩
      have hh' : h' = h := by
        rw [h1] at hname
        exact hname
      subst hh'
      rw [hlook] at h2
      injection h2 with h2
      subst h2
      rw [hid] at h3
      exact Option.noConfusion h3
    · intro i he
      rcases (hdel i h he).2 with ⟨exr', h2, h3, _⟩
      rw [hlook] at h2
      injection h2 with h2
      subst h2
      rw [hid] at h3
      exact Option.noConfusion h3
  · intro he
    exact htail _ he (Or.inl rfl)
  · intro he
    exact htail _ he (Or.inr rfl)
  · intro h hh exr i hlook hid hne
    have hnonempty : ¬((dns_buckets π env
        (get_existing_dns_records env.dnsFetch).1 routes).1.isEmpty &&
      (dns_buckets π env (get_existing_dns_records env.dnsFetch).1
        routes).2.1.isEmpty &&
      (dns_buckets π env (get_existing_dns_records env.dnsFetch).1
        routes).2.2.isEmpty) = true := by
      intro hemp
      rw [Bool.and_eq_true, Bool.and_eq_true] at hemp
      rcases hemp with ⟨⟨_, hu⟩, _⟩
      rw [List.isEmpty_iff] at hu
      rw [hu] at hh
      cases hh
    refine hproc _ (Or.inl ?_) hnonempty
    rw [applyDnsUpdates_ok env _ _ (fun h' _ => huok h')]
    refine List.mem_filterMap.2 ⟨h, hh, ?_⟩
    simp [hlook, hid, hne]
  · intro h hh exr i hlook hid hne
    have hnonempty : ¬((dns_buckets π env
        (get_existing_dns_records env.dnsFetch).1 routes).1.isEmpty &&
      (dns_buckets π env (get_existing_dns_records env.dnsFetch).1
        routes).2.1.isEmpty &&
      (dns_buckets π env (get_existing_dns_records env.dnsFetch).1
        routes).2.2.isEmpty) = true := by
      intro hemp
      rw [Bool.and_eq_true, Bool.and_eq_true] at hemp
      rcases hemp with ⟨_, hd⟩
      rw [List.isEmpty_iff] at hd
      rw [hd] at hh
      cases hh
    refine hproc _ (Or.inr ?_) hnonempty
    rw [applyDnsDeletes_ok env _ _ (fun h' _ => hdok h')]
    refine List.mem_filterMap.2 ⟨h, hh, ?_⟩
    simp [hlook, hid, hne]
  · intro rd he
    rcases sync_dns_dnsmut_mem π env routes false
      (Event.mutCreateDns rd) rfl he with ⟨_, hap⟩
    rcases applyDnsChanges_events _ _ _ _ _ _ hap with hf | hf | hf | hf | hf
    · rcases hf with ⟨h, _, heq⟩
      injection heq with heq
      subst heq
      rfl
    · rcases hf with ⟨_, _, _, _, _, _, _, habs⟩
      exact Event.noConfusion habs
    · rcases hf with ⟨_, _, _, _, _, _, _, habs⟩
      exact Event.noConfusion habs
    · exact Event.noConfusion hf
    · exact Event.noConfusion hf
  · intro i rd he
    rcases hupd i rd he with ⟨h, _, exr, h1, _, _, _⟩
    subst h1
    rfl

/-- Witness for C10: with every API call succeeding, the run raises no
apply error. -/
theorem dns_missing_id_skipped_witness :
    Event.dnsApplyError ∉
      sync_dns_records id sampleEnv true
        [⟨"a.example.com", "svc", none⟩] false :=
  (dns_missing_id_skipped id sampleEnv [⟨"a.example.com", "svc", none⟩]
    (fun _ => rfl) (fun _ => rfl) (fun _ => rfl)).2.2.2.1

theorem sublist_of_suffix {α : Type} {x l tr : List α} (hx : x.Sublist l)
    (hsuf : l.IsSuffix tr) : x.Sublist tr := by
  rcases hsuf with ⟨p, rfl⟩
  exact hx.trans (List.sublist_append_right p l)

/-- A DNS mutation observed in `sync` lies in the DNS phase, which is a
suffix of the whole trace. -/
theorem sync_dnsmut_mem (π : List String → List String) (env : Env)
    (m : Bool) (lr rr : List TunnelRoute) (dr : Bool) (e : Event)
    (hdns : e.isDnsMutation = true) (he : e ∈ sync π env m lr rr dr) :
    e ∈ sync_dns_records π env m lr dr ∧
      (sync_dns_records π env m lr dr).IsSuffix (sync π env m lr rr dr) := by
  have hRR : e ∉ routeReports (compare_routes π lr rr) := by
    intro hmem
    rw [report_not_dnsmut e (routeReports_report _ e hmem)] at hdns
    exact Bool.noConfusion hdns
  rcases sync_cases π env m lr rr dr with ⟨hch, heq⟩ | ⟨hch, hdr, heq⟩ |
    ⟨hch, hdr, hout, heq⟩ | ⟨hch, hdr, hout, heq⟩
  · rw [heq] at he
    rcases List.mem_append.1 he with he | he
    · exact absurd he hRR
    rcases List.mem_cons.1 he with rfl | he
    · exact Bool.noConfusion hdns
    refine ⟨he, routeReports (compare_routes π lr rr) ++
      [Event.noRouteChanges], ?_⟩
    rw [heq]
    simp
  · rw [heq] at he
    rcases List.mem_append.1 he with he | he
    · exact absurd he hRR
    rcases List.mem_cons.1 he with rfl | he
    · exact Bool.noConfusion hdns
    refine ⟨he, routeReports (compare_routes π lr rr) ++
      [Event.dryRunNotice], ?_⟩
    rw [heq]
    simp
  · rw [heq] at he
    rcases List.mem_append.1 he with he | he
    · exact absurd he hRR
    rcases List.mem_cons.1 he with rfl | he
    · exact Bool.noConfusion hdns
    refine ⟨he, routeReports (compare_routes π lr rr) ++
      [Event.mutUpdateTunnelConfig (build_cloudflare_config lr)], ?_⟩
    rw [heq]
    simp
  · rw [heq] at he
    rcases List.mem_append.1 he with he | he
    · exact absurd he hRR
    rcases List.mem_cons.1 he with rfl | he
    · exact Bool.noConfusion hdns
    rcases List.mem_cons.1 he with rfl | he
    · exact Bool.noConfusion hdns
    rcases List.mem_singleton.1 he with rfl
    exact Bool.noConfusion hdns

/-- Within `sync_dns_records`, the DNS mutations are ordered: every create
precedes every update, every create precedes every delete, and every update
precedes every delete. -/
theorem sync_dns_mut_order (π : List String → List String) (env : Env)
    (routes : List TunnelRoute) (dr : Bool) :
    (∀ rd i rd2,
      Event.mutCreateDns rd ∈ sync_dns_records π env true routes dr →
      Event.mutUpdateDns i rd2 ∈ sync_dns_records π env true routes dr →
      [Event.mutCreateDns rd, Event.mutUpdateDns i rd2].Sublist
        (sync_dns_records π env true routes dr)) ∧
    (∀ rd i h,
      Event.mutCreateDns rd ∈ sync_dns_records π env true routes dr →
      Event.mutDeleteDns i h ∈ sync_dns_records π env true routes dr →
      [Event.mutCreateDns rd, Event.mutDeleteDns i h].Sublist
        (sync_dns_records π env true routes dr)) ∧
    (∀ i rd2 j h,
      Event.mutUpdateDns i rd2 ∈ sync_dns_records π env true routes dr →
      Event.mutDeleteDns j h ∈ sync_dns_records π env true routes dr →
      [Event.mutUpdateDns i rd2, Event.mutDeleteDns j h].Sublist
        (sync_dns_records π env true routes dr)) := by
  rcases sync_dns_records_cases π env routes dr with ⟨tail, heq, htail⟩
  have hmut_tail : ∀ e : Event, e ∈ sync_dns_records π env true routes dr →
      e.isDnsMutation = true → e ∈ tail := by
    intro e he hdns
    rw [heq] at he
    rcases List.mem_cons.1 he with rfl | he
    · exact Bool.noConfusion hdns
    rcases List.mem_append.1 he with he | he
    · rcases List.mem_append.1 he with he | he
      · by_cases hw : (get_existing_dns_records env.dnsFetch).2 = true
        · rw [if_pos hw] at he
          rcases List.mem_singleton.1 he with rfl
          exact Bool.noConfusion hdns
        · rw [if_neg hw] at he
          cases he
      · rw [report_not_dnsmut e (dnsReports_report _ _ _ e he)] at hdns
        exact Bool.noConfusion hdns
    · exact he
  have hsuf : tail.IsSuffix (sync_dns_records π env true routes dr) :=
    ⟨_, heq.symm⟩
  rcases htail with ⟨_, rfl⟩ | ⟨_, rfl⟩ | ⟨_, rfl⟩
  · refine ⟨?_, ?_, ?_⟩
    · intro rd i rd2 hma _
      rcases List.mem_singleton.1 (hmut_tail _ hma rfl) with h'
      exact Event.noConfusion h'
    · intro rd i h hma _
      rcases List.mem_singleton.1 (hmut_tail _ hma rfl) with h'
      exact Event.noConfusion h'
    · intro i rd2 j h hma _
      rcases List.mem_singleton.1 (hmut_tail _ hma rfl) with h'
      exact Event.noConfusion h'
  · refine ⟨?_, ?_, ?_⟩
    · intro rd i rd2 hma _
      cases hmut_tail _ hma rfl
    · intro rd i h hma _
      cases hmut_tail _ hma rfl
    · intro i rd2 j h hma _
      cases hmut_tail _ hma rfl
  · rcases applyDnsChanges_order env
      (get_existing_dns_records env.dnsFetch).1
      (dns_buckets π env (get_existing_dns_records env.dnsFetch).1 routes).1
      (dns_buckets π env (get_existing_dns_records env.dnsFetch).1
        routes).2.1
      (dns_buckets π env (get_existing_dns_records env.dnsFetch).1
        routes).2.2 with ⟨Cp, Up, Dp, T, happly, hCp, hUp, hDp, hT⟩
    have hloc : ∀ e : Event, e ∈ applyDnsChanges env
        (get_existing_dns_records env.dnsFetch).1
        (dns_buckets π env (get_existing_dns_records env.dnsFetch).1
          routes).1
        (dns_buckets π env (get_existing_dns_records env.dnsFetch).1
          routes).2.1
        (dns_buckets π env (get_existing_dns_records env.dnsFetch).1
          routes).2.2 →
        e ∈ Cp ∨ e ∈ Up ∨ e ∈ Dp ∨ e ∈ T := by
      intro e he
      rw [happly] at he
      rcases List.mem_append.1 he with h1 | h4
      · rcases List.mem_append.1 h1 with h2 | h3
        · rcases List.mem_append.1 h2 with h | h
          · exact Or.inl h
          · exact Or.inr (Or.inl h)
        · exact Or.inr (Or.inr (Or.inl h3))
      · exact Or.inr (Or.inr (Or.inr h4))
    have hext1 : ∀ x : List Event, x.Sublist (Cp ++ (Up ++ (Dp ++ T))) →
        x.Sublist (sync_dns_records π env true routes dr) := by
      intro x hx
      refine sublist_of_suffix ?_ hsuf
      rw [happly]
      simpa [List.append_assoc] using hx
    have hext2 : ∀ x : List Event, x.Sublist ((Cp ++ Up) ++ (Dp ++ T)) →
        x.Sublist (sync_dns_records π env true routes dr) := by
      intro x hx
      refine sublist_of_suffix ?_ hsuf
      rw [happly]
      simpa [List.append_assoc] using hx
    refine ⟨?_, ?_, ?_⟩
    · intro rd i rd2 hma hmb
      have ha := hmut_tail _ hma rfl
      have hb := hmut_tail _ hmb rfl
      have hina : Event.mutCreateDns rd ∈ Cp := by
        rcases hloc _ ha with h | h | h | h
        · exact h
        · rcases hUp _ h with ⟨_, _, _, _, _, _, _, habs⟩
          exact Event.noConfusion habs
        · rcases hDp _ h with ⟨_, _, _, _, _, _, _, habs⟩
          exact Event.noConfusion habs
        · rcases hT _ h with habs | habs <;> exact Event.noConfusion habs
      have hinb : Event.mutUpdateDns i rd2 ∈ Up := by
        rcases hloc _ hb with h | h | h | h
        · rcases hCp _ h with ⟨_, _, habs⟩
          exact Event.noConfusion habs
        · exact h
        · rcases hDp _ h with ⟨_, _, _, _, _, _, _, habs⟩
          exact Event.noConfusion habs
        · rcases hT _ h with habs | habs <;> exact Event.noConfusion habs
      refine hext1 _ ?_
      exact pair_sublist_append hina (List.mem_append.2 (Or.inl hinb))
    · intro rd i h hma hmb
      have ha := hmut_tail _ hma rfl
      have hb := hmut_tail _ hmb rfl
      have hina : Event.mutCreateDns rd ∈ Cp := by
        rcases hloc _ ha with hx | hx | hx | hx
        · exact hx
        · rcases hUp _ hx with ⟨_, _, _, _, _, _, _, habs⟩
          exact Event.noConfusion habs
        · rcases hDp _ hx with ⟨_, _, _, _, _, _, _, habs⟩
          exact Event.noConfusion habs
        · rcases hT _ hx with habs | habs <;> exact Event.noConfusion habs
      have hinb : Event.mutDeleteDns i h ∈ Dp := by
        rcases hloc _ hb with hx | hx | hx | hx
        · rcases hCp _ hx with ⟨_, _, habs⟩
          exact Event.noConfusion habs
        · rcases hUp _ hx with ⟨_, _, _, _, _, _, _, habs⟩
          exact Event.noConfusion habs
        · exact hx
        · rcases hT _ hx with habs | habs <;> exact Event.noConfusion habs
      refine hext1 _ ?_
      exact pair_sublist_append hina
        (List.mem_append.2 (Or.inr (List.mem_append.2 (Or.inl hinb))))
    · intro i rd2 j h hma hmb
      have ha := hmut_tail _ hma rfl
      have hb := hmut_tail _ hmb rfl
      have hina : Event.mutUpdateDns i rd2 ∈ Up := by
        rcases hloc _ ha with hx | hx | hx | hx
        · rcases hCp _ hx with ⟨_, _, habs⟩
          exact Event.noConfusion habs
        · exact hx
        · rcases hDp _ hx with ⟨_, _, _, _, _, _, _, habs⟩
          exact Event.noConfusion habs
        · rcases hT _ hx with habs | habs <;> exact Event.noConfusion habs
      have hinb : Event.mutDeleteDns j h ∈ Dp := by
        rcases hloc _ hb with hx | hx | hx | hx
        · rcases hCp _ hx with ⟨_, _, habs⟩
          exact Event.noConfusion habs
        · rcases hUp _ hx with ⟨_, _, _, _, _, _, _, habs⟩
          exact Event.noConfusion habs
        · exact hx
        · rcases hT _ hx with habs | habs <;> exact Event.noConfusion habs
      refine hext2 _ ?_
      exact pair_sublist_append (List.mem_append.2 (Or.inr hina))
        (List.mem_append.2 (Or.inl hinb))

/-- C7 counterexample: with route changes and a failing configuration push,
the run exits immediately — DNS synchronization does not run at all (no DNS
header appears and the trace ends at the exit), contradicting the claim
that DNS sync still runs when route application failed. -/
theorem dns_after_route_failure_cex :
    Event.dnsHeader ∉
      sync id { sampleEnv with updateConfigOutcome := Except.error () } true
        [⟨"a.example.com", "svc", none⟩] [] false ∧
    (sync id { sampleEnv with updateConfigOutcome := Except.error () } true
        [⟨"a.example.com", "svc", none⟩] [] false).getLast? =
      some Event.exitError := by
  refine ⟨by decide, by decide⟩

/-- C7 (amended): DNS application is ordered record-by-record as all
creates, then all updates, then all deletes; DNS synchronization runs and
is reported both when route reconciliation found no changes and when the
route push succeeds; but when the route-application call fails the run
exits immediately and no DNS synchronization (header, report or mutation)
happens. -/
theorem dns_apply_order_and_independence (π : List String → List String)
    (env : Env) (lr rr : List TunnelRoute) :
    (∀ rd i rd2,
      Event.mutCreateDns rd ∈ sync π env true lr rr false →
      Event.mutUpdateDns i rd2 ∈ sync π env true lr rr false →
      [Event.mutCreateDns rd, Event.mutUpdateDns i rd2].Sublist
        (sync π env true lr rr false)) ∧
    (∀ rd i h,
      Event.mutCreateDns rd ∈ sync π env true lr rr false →
      Event.mutDeleteDns i h ∈ sync π env true lr rr false →
      [Event.mutCreateDns rd, Event.mutDeleteDns i h].Sublist
        (sync π env true lr rr false)) ∧
    (∀ i rd2 j h,
      Event.mutUpdateDns i rd2 ∈ sync π env true lr rr false →
      Event.mutDeleteDns j h ∈ sync π env true lr rr false →
      [Event.mutUpdateDns i rd2, Event.mutDeleteDns j h].Sublist
        (sync π env true lr rr false)) ∧
    ((compare_routes π lr rr).has_changes = false ∨
        env.updateConfigOutcome = Except.ok () →
      (sync_dns_records π env true lr false).IsSuffix
        (sync π env true lr rr false) ∧
      Event.dnsHeader ∈ sync π env true lr rr false) ∧
    ((compare_routes π lr rr).has_changes = true →
      env.updateConfigOutcome = Except.error () →
      Event.dnsHeader ∉ sync π env true lr rr false ∧
      (∀ e ∈ sync π env true lr rr false, e.isDnsMutation = false) ∧
      (∀ h, Event.reportDnsCreate h ∉ sync π env true lr rr false ∧
            Event.reportDnsUpdate h ∉ sync π env true lr rr false ∧
            Event.reportDnsDelete h ∉ sync π env true lr rr false) ∧
      (sync π env true lr rr false).getLast? = some Event.exitError) := by
  have horder := sync_dns_mut_order π env lr false
  have hlift : ∀ (a b : Event), a.isDnsMutation = true →
      b.isDnsMutation = true →
      a ∈ sync π env true lr rr false →
      b ∈ sync π env true lr rr false →
      ([a, b].Sublist (sync_dns_records π env true lr false) →
        [a, b].Sublist (sync π env true lr rr false)) := by
    intro a b hda hdb ha hb hsub
    exact sublist_of_suffix hsub
      (sync_dnsmut_mem π env true lr rr false a hda ha).2
  refine ⟨?_, ?_, ?_, ?_, ?_⟩
  · intro rd i rd2 hma hmb
    have ha := sync_dnsmut_mem π env true lr rr false
      (Event.mutCreateDns rd) rfl hma
    have hb := sync_dnsmut_mem π env true lr rr false
      (Event.mutUpdateDns i rd2) rfl hmb
    exact hlift _ _ rfl rfl hma hmb (horder.1 rd i rd2 ha.1 hb.1)
  · intro rd i h hma hmb
    have ha := sync_dnsmut_mem π env true lr rr false
      (Event.mutCreateDns rd) rfl hma
    have hb := sync_dnsmut_mem π env true lr rr false
      (Event.mutDeleteDns i h) rfl hmb
    exact hlift _ _ rfl rfl hma hmb (horder.2.1 rd i h ha.1 hb.1)
  · intro i rd2 j h hma hmb
    have ha := sync_dnsmut_mem π env true lr rr false
      (Event.mutUpdateDns i rd2) rfl hma
    have hb := sync_dnsmut_mem π env true lr rr false
      (Event.mutDeleteDns j h) rfl hmb
    exact hlift _ _ rfl rfl hma hmb (horder.2.2 i rd2 j h ha.1 hb.1)
  · intro hpass
    have hheader : Event.dnsHeader ∈ sync_dns_records π env true lr false := by
      rcases sync_dns_records_cases π env lr false with ⟨tail, heqd, _⟩
      rw [heqd]
      simp
    rcases sync_cases π env true lr rr false with ⟨hch, heq⟩ |
      ⟨hch, hdr, heq⟩ | ⟨hch, hdr, hout, heq⟩ | ⟨hch, hdr, hout, heq⟩
    · refine ⟨⟨routeReports (compare_routes π lr rr) ++
        [Event.noRouteChanges], by rw [heq]; simp⟩, ?_⟩
      rw [heq]
      exact List.mem_append.2 (Or.inr (List.mem_cons_of_mem _ hheader))
    · exact Bool.noConfusion hdr
    · refine ⟨⟨routeReports (compare_routes π lr rr) ++
        [Event.mutUpdateTunnelConfig (build_cloudflare_config lr)],
        by rw [heq]; simp⟩, ?_⟩
      rw [heq]
      exact List.mem_append.2 (Or.inr (List.mem_cons_of_mem _ hheader))
    · rcases hpass with hp | hp
      · rw [hch] at hp
        exact Bool.noConfusion hp
      · rw [hout] at hp
        exact Except.noConfusion hp
  · intro hch hout
    rcases sync_cases π env true lr rr false with ⟨hch', heq⟩ |
      ⟨hch', hdr, heq⟩ | ⟨hch', hdr, hout', heq⟩ | ⟨hch', hdr, hout', heq⟩
    · rw [hch'] at hch
      exact Bool.noConfusion hch
    · exact Bool.noConfusion hdr
    · rw [hout] at hout'
      exact Except.noConfusion hout'
    · have htriple : ∀ e : Event,
          e ∈ sync π env true lr rr false →
          e ∈ routeReports (compare_routes π lr rr) ∨
            e = Event.mutUpdateTunnelConfig (build_cloudflare_config lr) ∨
            e = Event.routeApplyError ∨ e = Event.exitError := by
        intro e he
        rw [heq] at he
        rcases List.mem_append.1 he with he | he
        · exact Or.inl he
        rcases List.mem_cons.1 he with rfl | he
        · exact Or.inr (Or.inl rfl)
        rcases List.mem_cons.1 he with rfl | he
        · exact Or.inr (Or.inr (Or.inl rfl))
        rcases List.mem_singleton.1 he with rfl
        exact Or.inr (Or.inr (Or.inr rfl))
      refine ⟨?_, ?_, ?_, ?_⟩
      · intro he
        rcases htriple _ he with h | h | h | h
        · have hr := routeReports_report _ _ h
          exact Bool.noConfusion hr
        · exact Event.noConfusion h
        · exact Event.noConfusion h
        · exact Event.noConfusion h
      · intro e he
        rcases htriple _ he with h | h | h | h
        · exact report_not_dnsmut e (routeReports_report _ e h)
        · rw [h]; rfl
        · rw [h]; rfl
        · rw [h]; rfl
      · intro h
        refine ⟨?_, ?_, ?_⟩ <;> intro he
        · rcases htriple _ he with hx | hx | hx | hx
          · rcases routeReports_forms _ _ hx with ⟨_, _, habs⟩ |
              ⟨_, _, habs⟩ | ⟨_, _, habs⟩ <;> exact Event.noConfusion habs
          · exact Event.noConfusion hx
          · exact Event.noConfusion hx
          · exact Event.noConfusion hx
        · rcases htriple _ he with hx | hx | hx | hx
          · rcases routeReports_forms _ _ hx with ⟨_, _, habs⟩ |
              ⟨_, _, habs⟩ | ⟨_, _, habs⟩ <;> exact Event.noConfusion habs
          · exact Event.noConfusion hx
          · exact Event.noConfusion hx
          · exact Event.noConfusion hx
        · rcases htriple _ he with hx | hx | hx | hx
          · rcases routeReports_forms _ _ hx with ⟨_, _, habs⟩ |
              ⟨_, _, habs⟩ | ⟨_, _, habs⟩ <;> exact Event.noConfusion habs
          · exact Event.noConfusion hx
          · exact Event.noConfusion hx
          · exact Event.noConfusion hx
      · rw [heq, List.getLast?_append]
        rfl

/-- Witness for the amended C7: with a successful push, the DNS phase runs
and its header is in the trace. -/
theorem dns_apply_order_and_independence_witness :
    Event.dnsHeader ∈
      sync id sampleEnv true [⟨"a.example.com", "svc", none⟩] [] false :=
  ((dns_apply_order_and_independence id sampleEnv
    [⟨"a.example.com", "svc", none⟩] []).2.2.2.1 (Or.inr rfl)).2

/-- C4 counterexample: in a real run with both route changes and DNS
changes, the route-configuration mutation (trace index 1) is attempted
before the DNS actions are enumerated (trace index 3), so it is false that
every computed action is enumerated in the report before any mutation is
attempted. -/
theorem report_before_mutation_cex :
    ((sync id sampleEnv true [⟨"a.example.com", "svc", none⟩] [] false)[1]? =
      some (Event.mutUpdateTunnelConfig
        (build_cloudflare_config [⟨"a.example.com", "svc", none⟩]))) ∧
    (Event.mutUpdateTunnelConfig
        (build_cloudflare_config [⟨"a.example.com", "svc", none⟩])).isMutation
      = true ∧
    ((sync id sampleEnv true [⟨"a.example.com", "svc", none⟩] [] false)[3]? =
      some (Event.reportDnsUpdate "a.example.com")) ∧
    (Event.reportDnsUpdate "a.example.com").isReport = true := by
  refine ⟨by decide, rfl, by decide, rfl⟩

/-- C4 (amended): the dry run and the real run report identical route and
DNS action sets provided the real run does not abort at route application;
the dry run performs no mutating call; and every mutation of the real run
is preceded by the report enumerating it within its own phase — all route
reports precede the configuration push, and each DNS mutation is preceded
by its own DNS report line (the configuration push, however, precedes the
DNS enumeration). -/
theorem dry_run_real_run_agree (π : List String → List String) (env : Env)
    (m : Bool) (lr rr : List TunnelRoute)
    (hok : (compare_routes π lr rr).has_changes = true →
      env.updateConfigOutcome = Except.ok ()) :
    (sync π env m lr rr true).filter Event.isReport =
      (sync π env m lr rr false).filter Event.isReport ∧
    (∀ e ∈ sync π env m lr rr true, e.isMutation = false) ∧
    (∀ cfg, Event.mutUpdateTunnelConfig cfg ∈ sync π env m lr rr false →
      ∀ e ∈ routeReports (compare_routes π lr rr),
        [e, Event.mutUpdateTunnelConfig cfg].Sublist
          (sync π env m lr rr false)) ∧
    (∀ rd, Event.mutCreateDns rd ∈ sync π env m lr rr false →
      [Event.reportDnsCreate rd.name, Event.mutCreateDns rd].Sublist
        (sync π env m lr rr false)) ∧
    (∀ i rd, Event.mutUpdateDns i rd ∈ sync π env m lr rr false →
      [Event.reportDnsUpdate rd.name, Event.mutUpdateDns i rd].Sublist
        (sync π env m lr rr false)) ∧
    (∀ i h, Event.mutDeleteDns i h ∈ sync π env m lr rr false →
      [Event.reportDnsDelete h, Event.mutDeleteDns i h].Sublist
        (sync π env m lr rr false)) := by
  refine ⟨?_, sync_dry_no_mut π env m lr rr, ?_, ?_, ?_, ?_⟩
  · rw [sync_filter_report π env m lr rr true
      (fun _ hdr => Bool.noConfusion hdr),
      sync_filter_report π env m lr rr false (fun hch _ => hok hch)]
    cases m with
    | false => rfl
    | true =>
      rw [sync_dns_filter_report π env lr true,
        sync_dns_filter_report π env lr false]
  · intro cfg he e hrep
    rcases mutCfg_mem_sync π env m lr rr false cfg he with ⟨hch, _, rfl⟩
    rcases sync_cases π env m lr rr false with ⟨hch', _⟩ | ⟨_, hdr, _⟩ |
      ⟨_, _, _, heq⟩ | ⟨_, _, _, heq⟩
    · rw [hch'] at hch
      exact Bool.noConfusion hch
    · exact Bool.noConfusion hdr
    · rw [heq]
      exact pair_sublist_append hrep (List.mem_cons_self _ _)
    · rw [heq]
      exact pair_sublist_append hrep (List.mem_cons_self _ _)
  · intro rd he
    have hm := sync_dnsmut_mem π env m lr rr false
      (Event.mutCreateDns rd) rfl he
    exact sublist_of_suffix
      ((sync_dns_mut_reported π env m lr false).1 rd hm.1) hm.2
  · intro i rd he
    have hm := sync_dnsmut_mem π env m lr rr false
      (Event.mutUpdateDns i rd) rfl he
    exact sublist_of_suffix
      ((sync_dns_mut_reported π env m lr false).2.1 i rd hm.1) hm.2
  · intro i h he
    have hm := sync_dnsmut_mem π env m lr rr false
      (Event.mutDeleteDns i h) rfl he
    exact sublist_of_suffix
      ((sync_dns_mut_reported π env m lr false).2.2 i h hm.1) hm.2

/-- Witness for the amended C4: dry run and real run report the same
actions at a concrete input. -/
theorem dry_run_real_run_agree_witness :
    (sync id sampleEnv true [⟨"a.example.com", "svc", none⟩] [] true).filter
        Event.isReport =
      (sync id sampleEnv true [⟨"a.example.com", "svc", none⟩] [] false).filter
        Event.isReport :=
  (dry_run_real_run_agree id sampleEnv true [⟨"a.example.com", "svc", none⟩]
    [] (fun _ => rfl)).1

end Homelab
